import Mathlib

/-!
# Verification of the logpad storage/reconstruction engine

Shallow embedding of the SQLite-backed event-log engine (the worker source:
schema registries `tables`, `columns`, `cell_history`, `foreign_keys`, the
reconstruction queries, and the mutation handlers `create_table`,
`create_column`, `delete_table`, `set_column_unique`, `create_row`,
`update_row`, `delete_row`, `create_foreign_key`).

Modelling conventions:
* A SQL row of each registry is a structure; `deleted_at IS NULL` is modelled
  by a boolean `deleted` flag (the engine only ever tests it for NULL-ness).
* `AUTOINCREMENT` ids are modelled by per-registry counters in the `DB` state.
* Each handler is a function `DB → args → DB × Except String result`: SQL
  statements executed before a thrown error keep their effect on the state,
  because the source runs them with no surrounding transaction (only the
  legacy migration uses BEGIN/COMMIT).
* `crypto.randomUUID()` is an external input, modelled as an explicit
  `row_id` argument, and the `strftime` timestamp default as a `now` argument.
-/

deriving instance DecidableEq for Except

/-- A row of the `tables` registry. -/
structure TableRow where
  id : Nat
  name : String
  deleted : Bool
deriving DecidableEq, Repr

/-- A row of the `columns` registry.  `display_order` is an SQL INTEGER and
the engine seeds it from `COALESCE(MAX(display_order), -1) + 1`, so it is
modelled as `Int`. -/
structure ColumnRow where
  id : Nat
  table_id : Nat
  name : String
  display_order : Int
  is_unique : Bool
  deleted : Bool
deriving DecidableEq, Repr

/-- A row of the append-only `cell_history` log.  `sentinel` is one of
NULL, `'__new__'`, `'__deleted__'`; `column_id` and `value` are nullable. -/
structure CellEvent where
  id : Nat
  table_id : Nat
  row_id : String
  column_id : Option Nat
  sentinel : Option String
  value : Option String
  timestamp : String
deriving DecidableEq, Repr

/-- A row of the `foreign_keys` registry. -/
structure FkRow where
  id : Nat
  from_column_id : Nat
  to_table_id : Nat
  deleted : Bool
deriving DecidableEq, Repr

/-- The engine state: the four append/tombstone-only collections plus the
AUTOINCREMENT counters. -/
structure DB where
  tables : List TableRow
  columns : List ColumnRow
  cell_history : List CellEvent
  foreign_keys : List FkRow
  next_table_id : Nat
  next_column_id : Nat
  next_event_id : Nat
  next_fk_id : Nat
deriving DecidableEq, Repr

/-- JavaScript `String.prototype.trim`, restricted to the ASCII whitespace
the engine can actually receive; written over the character list so that it
reduces in the kernel. -/
def js_trim (s : String) : String :=
  ⟨((s.data.dropWhile Char.isWhitespace).reverse.dropWhile Char.isWhitespace).reverse⟩

/-- JavaScript truthiness of a nullable string cell value (`null`, `undefined`
and `''` are falsy). -/
def truthy : Option String → Bool
  | none => false
  | some s => s ≠ ""

/-- Append one `INSERT INTO cell_history` row; the id is the AUTOINCREMENT
counter. -/
def appendCell (db : DB) (t : Nat) (rid : String) (cid : Option Nat)
    (sent : Option String) (v : Option String) (now : String) : DB :=
  { db with
    cell_history := db.cell_history ++ [⟨db.next_event_id, t, rid, cid, sent, v, now⟩],
    next_event_id := db.next_event_id + 1 }

/-- The non-lifecycle (`sentinel IS NULL`) events of one `(row, column)` pair
within a table — one group of the `latest` CTE. -/
def pairEvents (db : DB) (t : Nat) (r : String) (c : Nat) : List CellEvent :=
  db.cell_history.filter fun e =>
    e.table_id == t && e.sentinel.isNone && e.row_id == r && e.column_id == some c

/-- SQL `MAX(id)` over a group of events (0 on the empty group, which the
engine never consults). -/
def maxIdOf (es : List CellEvent) : Nat :=
  es.foldl (fun m e => max m e.id) 0

/-- The `JOIN cell_history ch ON ch.id = l.max_id` step: the event whose id
is the group maximum of the `(row, column)` pair, `none` when the pair has no
events.  (The join scans the whole log by id; ids are primary keys.) -/
def latestEvent (db : DB) (t : Nat) (r : String) (c : Nat) : Option CellEvent :=
  let es := pairEvents db t r c
  if es.isEmpty then none
  else db.cell_history.find? fun e => e.id == maxIdOf es

/-- Current value of a `(row, column)` pair: the `value` of its latest event. -/
def valueAt (db : DB) (t : Nat) (r : String) (c : Nat) : Option String :=
  match latestEvent db t r c with
  | some e => e.value
  | none => none

/-- The `deleted_rows` CTE: among the row's `'__deleted__'` lifecycle events,
`MAX(CASE WHEN value = '1' THEN id ELSE 0 END) > MAX(CASE WHEN value = '0'
THEN id ELSE 0 END)` (a row with no such events is not in the grouping). -/
def isDeletedRow (db : DB) (t : Nat) (r : String) : Bool :=
  let dels := db.cell_history.filter fun e =>
    e.table_id == t && e.sentinel == some "__deleted__" && e.row_id == r
  !dels.isEmpty &&
    (dels.foldl (fun m e => max m (if e.value == some "1" then e.id else 0)) 0 >
     dels.foldl (fun m e => max m (if e.value == some "0" then e.id else 0)) 0)

/-- Whether the row has a `'__new__'` (row-created) event in the table. -/
def hasNew (db : DB) (t : Nat) (r : String) : Bool :=
  db.cell_history.any fun e =>
    e.table_id == t && e.sentinel == some "__new__" && e.row_id == r

/-- Whether the row has any non-lifecycle event in the table (the
`row_id IN (SELECT row_id … WHERE sentinel IS NULL)` test of the
empty-rows query). -/
def hasCellEvents (db : DB) (t : Nat) (r : String) : Bool :=
  db.cell_history.any fun e =>
    e.table_id == t && e.sentinel.isNone && e.row_id == r

/-- The distinct rows having non-lifecycle events on one column of a table
(the row set of the `latest` CTE restricted to `l.column_id = ?`). -/
def rowsOfCol (db : DB) (t : Nat) (c : Nat) : List String :=
  ((db.cell_history.filter fun e =>
      e.table_id == t && e.sentinel.isNone && e.column_id == some c).map
    (·.row_id)).dedup

/-- The live-row identifiers of a table: distinct `row_id`s bearing a
`'__new__'` sentinel and not in `deleted_rows` (the `delete_table` guard's
`COUNT(DISTINCT row_id)` set). -/
def liveRows (db : DB) (t : Nat) : List String :=
  ((db.cell_history.filter fun e =>
      e.table_id == t && e.sentinel == some "__new__" && !isDeletedRow db t e.row_id).map
    (·.row_id)).dedup

/-- Lookup in the `_col_map_for_table` map: the JS loop writes each live column of the
table into a map keyed by name, so a later duplicate name would win. -/
def colLookup (db : DB) (t : Nat) (name : String) : Option ColumnRow :=
  (db.columns.filter fun c => c.table_id == t && !c.deleted).foldl
    (fun acc c => if c.name == name then some c else acc) none

/-- Model of `_get_fk_map_for_table`: pairs `(from_column_id, to_table_id)` of the
live foreign keys whose live anchor column belongs to the table. -/
def fkPairs (db : DB) (t : Nat) : List (Nat × Nat) :=
  db.foreign_keys.filterMap fun fk =>
    if fk.deleted then none
    else match db.columns.find? fun c => c.id == fk.from_column_id with
      | some c =>
        if c.table_id == t && !c.deleted then some (fk.from_column_id, fk.to_table_id)
        else none
      | none => none

/-- Lookup in the `_get_fk_map_for_table` map (again last-wins, like the JS
object build). -/
def fkLookup (db : DB) (t : Nat) (cid : Nat) : Option Nat :=
  (fkPairs db t).foldl (fun acc p => if p.1 == cid then some p.2 else acc) none

/-! ## Reconstruction (`_reconstruction_sql`, `_empty_rows_sql`, `get_rows`) -/

/-- One result row of `_reconstruction_sql`. -/
structure ReconRecord where
  row_id : String
  column_id : Nat
  column_name : String
  display_order : Int
  value : Option String
  timestamp : String
deriving DecidableEq, Repr

/-- The `(row_id, column_id)` groups of the `latest` CTE.  (Groups whose
`column_id` is NULL are dropped here; the SQL drops them at the inner join
on `columns` anyway.) -/
def reconPairs (db : DB) (t : Nat) : List (String × Nat) :=
  (db.cell_history.filterMap fun e =>
    if e.table_id == t && e.sentinel.isNone then e.column_id.map (fun c => (e.row_id, c))
    else none).dedup

/-- The result set of `_reconstruction_sql` before `ORDER BY`: for each
`(row, column)` group, join the max-id event and the live column metadata,
dropping rows of `deleted_rows`. -/
def reconUnsorted (db : DB) (t : Nat) : List ReconRecord :=
  (reconPairs db t).filterMap fun p =>
    if isDeletedRow db t p.1 then none
    else match latestEvent db t p.1 p.2, db.columns.find? fun c => c.id == p.2 with
      | some e, some col =>
        if col.deleted then none
        else some ⟨p.1, p.2, col.name, col.display_order, e.value, e.timestamp⟩
      | _, _ => none

/-- Byte-wise lexicographic comparison of character lists, modelling how
SQLite's BINARY collation orders the TEXT `row_id` values. -/
def charListLe : List Char → List Char → Bool
  | [], _ => true
  | _ :: _, [] => false
  | a :: as, b :: bs =>
    if a.val < b.val then true else if b.val < a.val then false else charListLe as bs

/-- The `ORDER BY l.row_id, c.display_order` comparator. -/
def reconLe (a b : ReconRecord) : Bool :=
  if a.row_id = b.row_id then a.display_order ≤ b.display_order
  else charListLe a.row_id.data b.row_id.data

/-- The ordered result set of `_reconstruction_sql`. -/
def reconRecords (db : DB) (t : Nat) : List ReconRecord :=
  List.insertionSort (fun a b => reconLe a b = true) (reconUnsorted db t)

/-- One entry of the per-row output of `get_rows`: the JS object
`{ row_id, cells, _last_modified }`, with `cells` as the assoc list the JS
object literal builds up. -/
structure RowOut where
  row_id : String
  cells : List (String × Option String)
  last_modified : String
deriving DecidableEq, Repr

/-- Model of `rowMap[rid].cells[name] = value`: update the entry in place when the
key exists, append it otherwise. -/
def setCell (cs : List (String × Option String)) (name : String) (v : Option String) :
    List (String × Option String) :=
  if cs.any fun p => p.1 == name then
    cs.map fun p => if p.1 == name then (name, v) else p
  else cs ++ [(name, v)]

/-- The body of the first `get_rows` loop on one reconstruction record. -/
def insertRec (acc : List RowOut) (rec : ReconRecord) : List RowOut :=
  if acc.any fun ro => ro.row_id == rec.row_id then
    acc.map fun ro =>
      if ro.row_id == rec.row_id then
        { ro with
          cells := setCell ro.cells rec.column_name rec.value,
          last_modified :=
            if ro.last_modified < rec.timestamp then rec.timestamp else ro.last_modified }
      else ro
  else acc ++ [⟨rec.row_id, [(rec.column_name, rec.value)], rec.timestamp⟩]

/-- The result set of `_empty_rows_sql`: distinct `(row_id, timestamp)` of
`'__new__'` events whose row has no non-lifecycle event and is not in
`deleted_rows`. -/
def emptyRecs (db : DB) (t : Nat) : List (String × String) :=
  ((db.cell_history.filter fun e =>
      e.table_id == t && e.sentinel == some "__new__" &&
      !hasCellEvents db t e.row_id && !isDeletedRow db t e.row_id).map
    fun e => (e.row_id, e.timestamp)).dedup

/-- The body of the second `get_rows` loop: add an untouched row only when
it is not present yet. -/
def insertEmpty (acc : List RowOut) (p : String × String) : List RowOut :=
  if acc.any fun ro => ro.row_id == p.1 then acc else acc ++ [⟨p.1, [], p.2⟩]

/-- Model of `get_rows`: fold the reconstruction records into the row map, then add
the never-touched live rows; `Object.values` returns them in insertion
order. -/
def get_rows (db : DB) (t : Nat) : List RowOut :=
  (emptyRecs db t).foldl insertEmpty ((reconRecords db t).foldl insertRec [])

/-- The row identifiers present in a `get_rows` result. -/
def rowIds (rows : List RowOut) : List String :=
  rows.map (·.row_id)

/-- The cells of the output row with a given identifier, if any. -/
def cellsFor (r : String) (rows : List RowOut) : Option (List (String × Option String)) :=
  (rows.find? fun ro => ro.row_id == r).map (·.cells)

/-- Assoc-list lookup in a cells object. -/
def lookupCell (cs : List (String × Option String)) (name : String) : Option (Option String) :=
  (cs.find? fun p => p.1 == name).map (·.2)

/-- The cell value `get_rows` reports for `(row, column name)`: `none` when
the row or the key is absent, `some v` when the cells object holds `v`
(itself a nullable string). -/
def reportedCell (db : DB) (t : Nat) (r : String) (name : String) : Option (Option String) :=
  match cellsFor r (get_rows db t) with
  | some cs => lookupCell cs name
  | none => none

/-! ## Validation helpers (`_check_uniqueness`, `_check_fk_exists`) -/

/-- Model of `_check_uniqueness`: an error when some other row of the table, not in
`deleted_rows`, currently has exactly this value in the column.  Returns the
thrown message, `none` when the check passes. -/
def check_uniqueness (db : DB) (t : Nat) (cid : Nat) (colName : String)
    (value : String) (excl : String) : Option String :=
  if value == "" then none
  else if (rowsOfCol db t cid).any fun r =>
      decide (r ≠ excl) && !isDeletedRow db t r && valueAt db t r cid == some value then
    some s!"Value \x22{value}\x22 already exists in column \x22{colName}\x22 (unique constraint)"
  else none

/-- Model of `_check_fk_exists`: the value must be a row of the target table bearing a
`'__new__'` sentinel and not in `deleted_rows`. -/
def check_fk_exists (db : DB) (toT : Nat) (value : String) (colName : String) : Option String :=
  if value == "" then none
  else if hasNew db toT value && !isDeletedRow db toT value then none
  else some s!"Value in column \x22{colName}\x22 does not reference a valid row in the linked table"

/-! ## Table management -/

/-- Model of `create_table`.  The handler checks the name only against live tables,
but the `tables` registry carries a DDL-level `name TEXT NOT NULL UNIQUE`
over every physical row, tombstoned ones included, so the subsequent
`INSERT` throws an uncaught SQLite constraint error whenever any row — live
or soft-deleted — already bears the name. -/
def create_table (db : DB) (name : String) : DB × Except String (Nat × String) :=
  let name := js_trim name
  if name = "" then (db, .error "Table name cannot be empty")
  else if db.tables.any fun tb => tb.name == name && !tb.deleted then
    (db, .error s!"Table \x22{name}\x22 already exists")
  else if db.tables.any fun tb => tb.name == name then
    (db, .error "UNIQUE constraint failed: tables.name")
  else
    ({ db with
        tables := db.tables ++ [⟨db.next_table_id, name, false⟩],
        next_table_id := db.next_table_id + 1 },
      .ok (db.next_table_id, name))

/-- The first `delete_table` write: tombstone the live foreign keys anchored
on the table's live columns. -/
def dtW1 (db : DB) (t : Nat) : DB :=
  { db with
    foreign_keys := db.foreign_keys.map fun fk =>
      if !fk.deleted &&
          db.columns.any fun c => c.id == fk.from_column_id && c.table_id == t && !c.deleted
      then { fk with deleted := true } else fk }

/-- The second `delete_table` write: tombstone the table's live columns. -/
def dtW2 (db : DB) (t : Nat) : DB :=
  { db with
    columns := db.columns.map fun c =>
      if c.table_id == t && !c.deleted then { c with deleted := true } else c }

/-- The third `delete_table` write: tombstone the table itself. -/
def dtW3 (db : DB) (t : Nat) : DB :=
  { db with
    tables := db.tables.map fun tb =>
      if tb.id == t && !tb.deleted then { tb with deleted := true } else tb }

/-- Model of `delete_table`: refuse while the table has live rows, else run the three
tombstoning UPDATEs in source order.  The source wraps them in no
transaction. -/
def delete_table (db : DB) (t : Nat) : DB × Except String Unit :=
  let cnt := (liveRows db t).length
  if cnt > 0 then
    (db, .error s!"Cannot delete table: it still has {cnt} live row(s). Delete all rows first.")
  else (dtW3 (dtW2 (dtW1 db t) t) t, .ok ())

/-- Model of `delete_table` when the `(k+1)`-th of its three UPDATE statements fails
(e.g. an I/O error from the VFS).  The source issues the statements
sequentially with no `BEGIN`/`ROLLBACK` — unlike `_migrate_legacy_db` — so
the first `k` writes keep their effect and the error propagates. -/
def delete_table_failAt (db : DB) (t : Nat) (k : Nat) : DB × Except String Unit :=
  let cnt := (liveRows db t).length
  if cnt > 0 then
    (db, .error s!"Cannot delete table: it still has {cnt} live row(s). Delete all rows first.")
  else
    (([dtW1, dtW2, dtW3].take k).foldl (fun d w => w d t) db, .error "disk I/O error")

/-! ## Column management -/

/-- Model of `create_column`.  The handler computes the next display order from the
live columns and relies on the DDL `UNIQUE(table_id, name)` — which spans
tombstoned rows too — for conflicts, translating the SQLite error into the
domain message. -/
def create_column (db : DB) (t : Nat) (name : String) (is_uniq : Bool) :
    DB × Except String (Nat × String) :=
  let name := js_trim name
  if name = "" then (db, .error "Column name cannot be empty")
  else
    let max_order : Int :=
      ((db.columns.filter fun c => c.table_id == t && !c.deleted).map
        (·.display_order)).foldl max (-1)
    if db.columns.any fun c => c.table_id == t && c.name == name then
      (db, .error s!"Column \x22{name}\x22 already exists in this table")
    else
      ({ db with
          columns := db.columns ++
            [⟨db.next_column_id, t, name, max_order + 1, is_uniq, false⟩],
          next_column_id := db.next_column_id + 1 },
        .ok (db.next_column_id, name))

/-- Model of `delete_column`: tombstone the column's live foreign keys, then the
column itself. -/
def delete_column (db : DB) (cid : Nat) : DB × Except String Unit :=
  ({ db with
      foreign_keys := db.foreign_keys.map fun fk =>
        if fk.from_column_id == cid && !fk.deleted then { fk with deleted := true } else fk,
      columns := db.columns.map fun c =>
        if c.id == cid && !c.deleted then { c with deleted := true } else c },
    .ok ())

/-- The current non-empty values of one column over the rows not in
`deleted_rows` (the grouped value list of the `set_column_unique` duplicate
scan), as `(row, value)` pairs. -/
def colCurrentValues (db : DB) (t : Nat) (cid : Nat) : List (String × String) :=
  (rowsOfCol db t cid).filterMap fun r =>
    if isDeletedRow db t r then none
    else match valueAt db t r cid with
      | some v => if v = "" then none else some (r, v)
      | none => none

/-- The `HAVING cnt > 1` duplicate test of `set_column_unique`. -/
def dupExists (db : DB) (t : Nat) (cid : Nat) : Bool :=
  (colCurrentValues db t cid).any fun p =>
    ((colCurrentValues db t cid).filter fun q => q.2 == p.2).length > 1

/-- Model of `set_column_unique`: live column required; when enabling, fail on an
existing duplicate without touching the flag; otherwise write the flag. -/
def set_column_unique (db : DB) (cid : Nat) (enable : Bool) : DB × Except String Unit :=
  match db.columns.find? fun c => c.id == cid && !c.deleted with
  | none => (db, .error "Column not found")
  | some col =>
    if enable && dupExists db col.table_id cid then
      (db, .error
        s!"Cannot enable unique constraint on \x22{col.name}\x22: column already has duplicate values")
    else
      ({ db with
          columns := db.columns.map fun c =>
            if c.id == cid && !c.deleted then { c with is_unique := enable } else c },
        .ok ())

/-! ## Row mutation -/

/-- The `create_row` validation loop: walk the supplied cells in order,
skipping unknown columns and falsy values, and return the first uniqueness
or foreign-key error. -/
def create_validate (db : DB) (t : Nat) (cells : List (String × Option String))
    (row_id : String) : Option String :=
  cells.findSome? fun p =>
    match colLookup db t p.1 with
    | none => none
    | some col =>
      if truthy p.2 then
        let v := p.2.getD ""
        match (if col.is_unique then check_uniqueness db t col.id p.1 v row_id else none) with
        | some e => some e
        | none =>
          match fkLookup db t col.id with
          | some toT => check_fk_exists db toT v p.1
          | none => none
      else none

/-- Model of `create_row`: validate every supplied value, then append the `'__new__'`
sentinel followed by one event per recognized truthy value.  The fresh
`crypto.randomUUID()` is the `row_id` argument. -/
def create_row (db : DB) (t : Nat) (row_id : String)
    (cells : List (String × Option String)) (now : String) : DB × Except String String :=
  match create_validate db t cells row_id with
  | some e => (db, .error e)
  | none =>
    let db1 := appendCell db t row_id none (some "__new__") none now
    let db2 := cells.foldl
      (fun d p =>
        match colLookup db t p.1 with
        | some col => if truthy p.2 then appendCell d t row_id (some col.id) none p.2 now else d
        | none => d)
      db1
    (db2, .ok row_id)

/-- The `update_row` validation loop: unknown columns are skipped; a truthy
value on a unique column is checked excluding the row itself; a truthy value
on a foreign-key column is checked against the target table. -/
def update_validate (db : DB) (t : Nat) (cells : List (String × Option String))
    (row_id : String) : Option String :=
  cells.findSome? fun p =>
    match colLookup db t p.1 with
    | none => none
    | some col =>
      match (if truthy p.2 && col.is_unique then
          check_uniqueness db t col.id p.1 (p.2.getD "") row_id else none) with
      | some e => some e
      | none =>
        if truthy p.2 then
          match fkLookup db t col.id with
          | some toT => check_fk_exists db toT (p.2.getD "") p.1
          | none => none
        else none

/-- The supplied cells whose column name is recognized (live column of the
table); these are exactly the entries the write loop appends, clears
included. -/
def recognizedCells (db : DB) (t : Nat) (cells : List (String × Option String)) :
    List (String × Option String) :=
  cells.filter fun p => (colLookup db t p.1).isSome

/-- Model of `update_row`: validate, then append one event per recognized entry (a
falsy value is written as-is, recording a clear as NULL); fail with the
domain error when nothing was recognized.  No check that `row_id` exists. -/
def update_row (db : DB) (t : Nat) (row_id : String)
    (cells : List (String × Option String)) (now : String) : DB × Except String String :=
  match update_validate db t cells row_id with
  | some e => (db, .error e)
  | none =>
    let db2 := cells.foldl
      (fun d p =>
        match colLookup db t p.1 with
        | some col => appendCell d t row_id (some col.id) none p.2 now
        | none => d)
      db
    if cells.any fun p => (colLookup db t p.1).isSome then (db2, .ok row_id)
    else (db2, .error "No valid columns found in update")

/-- The inbound live foreign keys targeting a table, joined with their live
anchor column and its live owning table: `(from_table_id, from_column_id,
from_table_name)` triples. -/
def inboundRefs (db : DB) (t : Nat) : List (Nat × Nat × String) :=
  db.foreign_keys.filterMap fun fk =>
    if fk.to_table_id == t && !fk.deleted then
      match db.columns.find? fun c => c.id == fk.from_column_id with
      | some c =>
        if c.deleted then none
        else match db.tables.find? fun tb => tb.id == c.table_id with
          | some tb => if tb.deleted then none else some (c.table_id, fk.from_column_id, tb.name)
          | none => none
      | none => none
    else none

/-- The per-foreign-key referencer count of `delete_row`: rows of the
referencing table, not in its `deleted_rows`, whose latest value in the
anchor column equals the row identifier being deleted. -/
def refCount (db : DB) (ft : Nat) (cid : Nat) (rid : String) : Nat :=
  ((rowsOfCol db ft cid).filter fun r =>
    !isDeletedRow db ft r && valueAt db ft r cid == some rid).length

/-- The first inbound foreign key that blocks the deletion, with its count
and the referencing table's name. -/
def delete_row_blocker (db : DB) (t : Nat) (rid : String) : Option (Nat × String) :=
  (inboundRefs db t).findSome? fun x =>
    let c := refCount db x.1 x.2.1 rid
    if c > 0 then some (c, x.2.2) else none

/-- Model of `delete_row`: scan the inbound live foreign keys; fail on the first with
live referencers, naming the referencing table and the count; otherwise
append one `'__deleted__'` lifecycle event with value `'1'`.  No check that
`row_id` exists or is live. -/
def delete_row (db : DB) (t : Nat) (rid : String) (now : String) : DB × Except String Unit :=
  match delete_row_blocker db t rid with
  | some (cnt, tname) =>
    (db, .error s!"Cannot delete: {cnt} row(s) in \x22{tname}\x22 reference this row")
  | none => (appendCell db t rid none (some "__deleted__") (some "1") now, .ok ())

/-! ## Foreign-key registry -/

/-- Model of `create_foreign_key`: live column required; no self-reference; live
target table required; at most one live foreign key per column. -/
def create_foreign_key (db : DB) (from_column_id to_table_id : Nat) :
    DB × Except String Nat :=
  match db.columns.find? fun c => c.id == from_column_id && !c.deleted with
  | none => (db, .error "Column not found")
  | some fromCol =>
    if fromCol.table_id == to_table_id then (db, .error "A table cannot reference itself")
    else
      match db.tables.find? fun tb => tb.id == to_table_id && !tb.deleted with
      | none => (db, .error "Target table not found")
      | some _ =>
        if db.foreign_keys.any fun fk => fk.from_column_id == from_column_id && !fk.deleted then
          (db, .error "Column already has a foreign key defined")
        else
          ({ db with
              foreign_keys :=
                db.foreign_keys ++ [⟨db.next_fk_id, from_column_id, to_table_id, false⟩],
              next_fk_id := db.next_fk_id + 1 },
            .ok db.next_fk_id)

/-- The live foreign keys anchored on one column. -/
def liveFksOn (db : DB) (cid : Nat) : List FkRow :=
  db.foreign_keys.filter fun fk => fk.from_column_id == cid && !fk.deleted

/-! ## Well-formedness

Invariants every state reachable through the engine satisfies: primary keys
are unique and below the AUTOINCREMENT counters, the DDL
`UNIQUE(table_id, name)` holds on `columns`, and every event's `column_id`
points into the owning table (the handlers only write column ids obtained
from `_col_map_for_table` of the event's own table). -/
def wf (db : DB) : Prop :=
  (db.cell_history.map (·.id)).Nodup ∧
  (∀ e ∈ db.cell_history, e.id < db.next_event_id) ∧
  1 ≤ db.next_event_id ∧
  (db.columns.map (·.id)).Nodup ∧
  (db.tables.map (·.id)).Nodup ∧
  (∀ c1 ∈ db.columns, ∀ c2 ∈ db.columns,
    c1.table_id = c2.table_id → c1.name = c2.name → c1 = c2) ∧
  (∀ e ∈ db.cell_history, ∀ c ∈ db.columns, e.column_id = some c.id →
    c.table_id = e.table_id)

instance (db : DB) : Decidable (wf db) := by
  unfold wf; infer_instance

/-! ## The spec's derived notions, for stating the claims

These two definitions follow the specification's wording (not the code):
they are only used to state claims and exhibit where code and spec
disagree. -/

/-- The spec's row liveness: "live iff it has a row-created event and its
most recent lifecycle 'deleted' marking (compared by event id) is not more
recent than its most recent 'restored' marking".  The id comparison itself
coincides with the code's `deleted_rows` test; the spec additionally demands
the row-created event. -/
def specRowLive (db : DB) (t : Nat) (r : String) : Bool :=
  hasNew db t r && !isDeletedRow db t r

/-- The spec's duplicate test for enabling uniqueness: some non-empty value
currently appears in more than one *live* row of the column (liveness per
`specRowLive`). -/
def specDupExists (db : DB) (t : Nat) (cid : Nat) : Bool :=
  (rowsOfCol db t cid).any fun r1 =>
    specRowLive db t r1 &&
      match valueAt db t r1 cid with
      | some v =>
        v ≠ "" && (rowsOfCol db t cid).any fun r2 =>
          r2 ≠ r1 && specRowLive db t r2 && valueAt db t r2 cid == some v
      | none => false

/-- The spec's blocking condition for `delete_row`: some *live* row (per
`specRowLive`) of a table holding a live foreign key targeting this table
currently holds the row's identifier in the (live) anchor column. -/
def specLiveReferencerExists (db : DB) (t : Nat) (rid : String) : Bool :=
  db.foreign_keys.any fun fk =>
    !fk.deleted && fk.to_table_id == t &&
      db.columns.any fun c =>
        c.id == fk.from_column_id && !c.deleted &&
          (db.tables.any fun tb => tb.id == c.table_id && !tb.deleted) &&
          (rowsOfCol db c.table_id c.id).any fun r =>
            specRowLive db c.table_id r && valueAt db c.table_id r c.id == some rid

/-! ## Sanity checks of the executable model (spec §8 scenario) -/

/-- A fresh, empty database. -/
def emptyDB : DB := ⟨[], [], [], [], 1, 1, 1, 1⟩

/-- Proof-side abbreviation: the effect of a run of reconstruction records on
one row's cells object (`none` = the row is not in the map yet). -/
def applyRecs (o : Option (List (String × Option String))) (rs : List ReconRecord) :
    Option (List (String × Option String)) :=
  rs.foldl
    (fun o rec =>
      match o with
      | some cs => some (setCell cs rec.column_name rec.value)
      | none => some [(rec.column_name, rec.value)])
    o

/-- Declarative form of `delete_row`'s referential block: a live foreign key
(with live anchor column and live owning table) targets the table, and some
row of the referencing table that is not in `deleted_rows` currently holds
the identifier in the anchor column.  Note the referencing row is not
required to have a row-created event. -/
def blockingRef (db : DB) (t : Nat) (rid : String) : Prop :=
  ∃ fk ∈ db.foreign_keys, fk.deleted = false ∧ fk.to_table_id = t ∧
    ∃ c ∈ db.columns, c.id = fk.from_column_id ∧ c.deleted = false ∧
      (∃ tb ∈ db.tables, tb.id = c.table_id ∧ tb.deleted = false) ∧
      ∃ r ∈ rowsOfCol db c.table_id c.id, isDeletedRow db c.table_id r = false ∧
        valueAt db c.table_id r c.id = some rid

instance (db : DB) (t : Nat) (rid : String) : Decidable (blockingRef db t rid) := by
  unfold blockingRef; infer_instance

/-- Declarative form of the duplicate test: two distinct rows, neither in
`deleted_rows`, currently hold the same non-empty value in the column. -/
def dupProp (db : DB) (t : Nat) (cid : Nat) : Prop :=
  ∃ r1 ∈ rowsOfCol db t cid, ∃ r2 ∈ rowsOfCol db t cid, r1 ≠ r2 ∧
    isDeletedRow db t r1 = false ∧ isDeletedRow db t r2 = false ∧
    valueAt db t r1 cid = valueAt db t r2 cid ∧
    valueAt db t r1 cid ≠ none ∧ valueAt db t r1 cid ≠ some ""

instance (db : DB) (t cid : Nat) : Decidable (dupProp db t cid) := by
  unfold dupProp; infer_instance

/-- The events the `update_row` write loop appends, starting from a given
AUTOINCREMENT counter: one per recognized entry, in order. -/
def updEvents (db : DB) (t : Nat) (rid : String) (now : String) :
    Nat → List (String × Option String) → List CellEvent
  | _, [] => []
  | start, p :: ps =>
    match colLookup db t p.1 with
    | some col => ⟨start, t, rid, some col.id, none, p.2, now⟩ ::
        updEvents db t rid now (start + 1) ps
    | none => updEvents db t rid now start ps

/-- A row that was never created (`update_row` on an unknown identifier
writes cell events without a `'__new__'` sentinel) but has a cell event on a
live column. -/
def dbC1 : DB :=
  ⟨[⟨1, "A", false⟩], [⟨10, 1, "C", 0, false, false⟩],
    [⟨1, 1, "r", some 10, none, some "x", "t1"⟩], [], 2, 11, 2, 1⟩

/-- Two live columns with interleaved writes; the latest write to `"A"` is
event 4. -/
def dbC2 : DB :=
  ⟨[⟨1, "T", false⟩], [⟨10, 1, "A", 0, false, false⟩, ⟨11, 1, "B", 1, false, false⟩],
    [⟨1, 1, "r1", none, some "__new__", none, "t1"⟩,
     ⟨2, 1, "r1", some 10, none, some "x", "t2"⟩,
     ⟨3, 1, "r1", some 11, none, some "y", "t3"⟩,
     ⟨4, 1, "r1", some 10, none, some "z", "t4"⟩], [], 2, 12, 5, 1⟩

/-- Create table `"T"` on a fresh database, then soft-delete it. -/
def dbC3a : DB := (delete_table (create_table emptyDB "T").1 1).1

/-- Create table `"T"`, add column `"C"`, then soft-delete the column. -/
def dbC3b : DB :=
  (delete_column (create_column (create_table emptyDB "T").1 1 "C" false).1 1).1

/-- Table 1 with a live column carrying a live foreign key to table 2, and
no rows, so `delete_table` passes its guard. -/
def dbC4 : DB :=
  ⟨[⟨1, "A", false⟩, ⟨2, "B", false⟩], [⟨10, 1, "C", 0, false, false⟩], [],
    [⟨5, 10, 2, false⟩], 3, 11, 1, 6⟩

/-- Table 1 with unique column `"A"`; the live row `"r1"` holds `"x"`. -/
def dbC5 : DB :=
  ⟨[⟨1, "T", false⟩], [⟨10, 1, "A", 0, true, false⟩],
    [⟨1, 1, "r1", none, some "__new__", none, "t1"⟩,
     ⟨2, 1, "r1", some 10, none, some "x", "t2"⟩], [], 2, 11, 3, 1⟩

/-- Table 2 has a live column `"ref"` with a live foreign key to table 1.
Row `"r1"` is live in table 1.  The row `"ghost"` of table 2 holds `"r1"` in
the foreign-key column but has no row-created event, so it is not a live row
in the spec's sense. -/
def dbC6 : DB :=
  ⟨[⟨1, "A", false⟩, ⟨2, "B", false⟩], [⟨20, 2, "ref", 0, false, false⟩],
    [⟨1, 1, "r1", none, some "__new__", none, "t1"⟩,
     ⟨2, 2, "ghost", some 20, none, some "r1", "t2"⟩],
    [⟨5, 20, 1, false⟩], 3, 21, 3, 6⟩

/-- Table 1 with one live, unreferenced row. -/
def dbC6w : DB :=
  ⟨[⟨1, "A", false⟩], [], [⟨1, 1, "r1", none, some "__new__", none, "t1"⟩], [], 2, 1, 2, 1⟩

/-- Column 10 holds `"v"` in the live row `"r1"` and in the phantom row
`"ghost"` (no row-created event, hence not a live row in the spec's sense). -/
def dbC7 : DB :=
  ⟨[⟨1, "T", false⟩], [⟨10, 1, "C", 0, false, false⟩],
    [⟨1, 1, "r1", none, some "__new__", none, "t1"⟩,
     ⟨2, 1, "r1", some 10, none, some "v", "t2"⟩,
     ⟨3, 1, "ghost", some 10, none, some "v", "t3"⟩], [], 2, 11, 4, 1⟩

/-- A column with a single current value holder, so enabling uniqueness
succeeds. -/
def dbC7w : DB :=
  ⟨[⟨1, "T", false⟩], [⟨10, 1, "C", 0, false, false⟩],
    [⟨1, 1, "r1", none, some "__new__", none, "t1"⟩,
     ⟨2, 1, "r1", some 10, none, some "v", "t2"⟩], [], 2, 11, 3, 1⟩

/-- Two live tables and a live column with no foreign key yet. -/
def dbC8 : DB :=
  ⟨[⟨1, "A", false⟩, ⟨2, "B", false⟩], [⟨10, 1, "C", 0, false, false⟩], [], [], 3, 11, 1, 1⟩

/-- A table with one live column and an empty event log. -/
def dbC10 : DB :=
  ⟨[⟨1, "T", false⟩], [⟨10, 1, "A", 0, false, false⟩], [], [], 2, 11, 1, 1⟩

example :
    let s1 := create_table emptyDB "Tasks"
    let s2 := create_column s1.1 1 "Title" true
    let s3 := create_row s2.1 1 "r1" [("Title", some "Buy milk")] "t1"
    let s4 := create_row s3.1 1 "r2" [("Title", some "Buy milk")] "t2"
    let s5 := update_row s4.1 1 "r1" [("Title", some "Buy eggs")] "t3"
    s1.2.isOk ∧ s2.2.isOk ∧ s3.2.isOk ∧ ¬s4.2.isOk ∧ s5.2.isOk ∧
      reportedCell s5.1 1 "r1" "Title" = some (some "Buy eggs") ∧
      rowIds (get_rows s5.1 1) = ["r1"] ∧ wf s5.1 := by decide

example :
    let s1 := create_table emptyDB "Tasks"
    let s3 := create_row s1.1 1 "r1" [] "t1"
    let s4 := delete_row s3.1 1 "r1" "t2"
    rowIds (get_rows s3.1 1) = ["r1"] ∧ rowIds (get_rows s4.1 1) = [] := by decide

/-! ## Generic list lemmas -/

theorem foldl_max_mem (l : List Nat) (a : Nat) : l.foldl max a = a ∨ l.foldl max a ∈ l := by
  induction l generalizing a with
  | nil => exact Or.inl rfl
  | cons h t ih =>
    rcases ih (max a h) with h1 | h1
    · rcases max_choice a h with h2 | h2
      · exact Or.inl (by rw [List.foldl_cons, h1, h2])
      · refine Or.inr ?_
        rw [List.foldl_cons, h1, h2]
        exact List.mem_cons_self h t
    · exact Or.inr (List.mem_cons_of_mem _ (by rw [List.foldl_cons]; exact h1))

theorem le_foldl_max (l : List Nat) (a : Nat) :
    a ≤ l.foldl max a ∧ ∀ x ∈ l, x ≤ l.foldl max a := by
  induction l generalizing a with
  | nil => simp
  | cons h t ih =>
    rcases ih (max a h) with ⟨h1, h2⟩
    refine ⟨le_trans (Nat.le_max_left a h) h1, ?_⟩
    intro x hx
    rcases List.mem_cons.mp hx with rfl | hx
    · exact le_trans (Nat.le_max_right a x) h1
    · exact h2 x hx

theorem find?_map_eq (f : α → β) (p : β → Bool) (l : List α) :
    (l.map f).find? p = (l.find? fun a => p (f a)).map f := by
  induction l with
  | nil => rfl
  | cons h t ih =>
    by_cases hp : p (f h) = true
    · simp [List.find?_cons_of_pos, hp]
    · rw [List.map_cons, List.find?_cons_of_neg _ (by simpa using hp),
        List.find?_cons_of_neg _ (by simpa using hp), ih]

/-- A `find?` by a key that is unique in the list finds a designated member. -/
theorem find?_eq_some_of_key (key : α → Nat) (p : α → Bool) (l : List α) (x : α)
    (hn : (l.map key).Nodup) (hm : x ∈ l) (hp : p x = true)
    (hk : ∀ y ∈ l, p y = true → key y = key x) : l.find? p = some x := by
  induction l with
  | nil => cases hm
  | cons h t ih =>
    rw [List.map_cons, List.nodup_cons] at hn
    obtain ⟨hh, ht⟩ := hn
    by_cases hph : p h = true
    · have hkey : key h = key x := hk h (List.mem_cons_self h t) hph
      have hx : h = x := by
        rcases List.mem_cons.mp hm with rfl | hmt
        · rfl
        · exact absurd (hkey ▸ List.mem_map_of_mem key hmt) hh
      rw [List.find?_cons_of_pos _ hph, hx]
    · have hmt : x ∈ t := by
        rcases List.mem_cons.mp hm with rfl | hmt
        · exact absurd hp hph
        · exact hmt
      rw [List.find?_cons_of_neg _ (by simpa using hph)]
      exact ih ht hmt fun y hy => hk y (List.mem_cons_of_mem h hy)

theorem one_lt_length_of_two_mem {l : List α} {a b : α}
    (ha : a ∈ l) (hb : b ∈ l) (hab : a ≠ b) : 1 < l.length := by
  cases l with
  | nil => cases ha
  | cons x t =>
    cases t with
    | nil =>
      rcases List.mem_singleton.mp ha with rfl
      rcases List.mem_singleton.mp hb with rfl
      exact absurd rfl hab
    | cons y u => simp only [List.length_cons]; omega

theorem two_mem_of_one_lt_length {l : List α} (hn : l.Nodup) (hl : 1 < l.length) :
    ∃ a ∈ l, ∃ b ∈ l, a ≠ b := by
  cases l with
  | nil => simp at hl
  | cons x t =>
    cases t with
    | nil => simp at hl
    | cons y u =>
      rcases List.nodup_cons.mp hn with ⟨hx, _⟩
      exact ⟨x, List.mem_cons_self _ _,
        y, List.mem_cons_of_mem _ (List.mem_cons_self _ _),
        fun h => hx (h ▸ List.mem_cons_self y u)⟩

theorem filterMap_fst_sublist (f : α → Option (α × β)) (l : List α)
    (hf : ∀ a b, f a = some b → b.1 = a) :
    ((l.filterMap f).map Prod.fst).Sublist l := by
  induction l with
  | nil => simp
  | cons h t ih =>
    rw [List.filterMap_cons]
    cases hfh : f h with
    | none => exact ih.cons h
    | some b => rw [List.map_cons, hf h b hfh]; exact ih.cons₂ h

/-! ## The latest event of a pair -/

/-- Under well-formedness, a non-empty `(row, column)` group has a unique
latest event: it belongs to the group and its id dominates the group. -/
theorem latestEvent_some {db : DB} (hwf : wf db) (t : Nat) (r : String) (c : Nat)
    (hne : pairEvents db t r c ≠ []) :
    ∃ e, latestEvent db t r c = some e ∧ e ∈ pairEvents db t r c ∧
      ∀ e' ∈ pairEvents db t r c, e'.id ≤ e.id := by
  obtain ⟨hn, -, -, -, -, -, -⟩ := hwf
  set es := pairEvents db t r c with hes
  have hfm : maxIdOf es = (es.map (·.id)).foldl max 0 := by
    rw [maxIdOf, List.foldl_map]
  have hmax : maxIdOf es ∈ es.map (·.id) := by
    rcases foldl_max_mem (es.map (·.id)) 0 with h0 | h0
    · obtain ⟨e0, he0⟩ := List.exists_mem_of_ne_nil es hne
      have h1 := (le_foldl_max (es.map (·.id)) 0).2 e0.id (List.mem_map_of_mem _ he0)
      have h2 : e0.id = 0 := by omega
      rw [hfm, h0, ← h2]
      exact List.mem_map_of_mem _ he0
    · rw [hfm]; exact h0
  obtain ⟨e, hmem, hid⟩ := List.mem_map.mp hmax
  have hsub : es.Sublist db.cell_history := List.filter_sublist _
  refine ⟨e, ?_, hmem, ?_⟩
  · rw [latestEvent, ← hes]
    rw [if_neg (by simpa [List.isEmpty_iff] using hne)]
    exact find?_eq_some_of_key (·.id) _ _ e hn (hsub.mem hmem) (by simp [hid])
      fun y _ hy => by simpa [hid] using hy
  · intro e' he'
    have := (le_foldl_max (es.map (·.id)) 0).2 e'.id (List.mem_map_of_mem _ he')
    omega

/-! ## Membership in the reconstruction result -/

theorem filter_ne_nil_iff {p : α → Bool} {l : List α} :
    l.filter p ≠ [] ↔ ∃ a ∈ l, p a = true := by
  induction l with
  | nil => simp
  | cons h t ih =>
    by_cases hp : p h = true
    · simp [List.filter_cons, hp]
    · simp only [List.filter_cons, if_neg hp, ih, List.mem_cons]
      constructor
      · rintro ⟨a, ha, hpa⟩; exact ⟨a, Or.inr ha, hpa⟩
      · rintro ⟨a, ha | ha, hpa⟩
        · exact absurd (ha ▸ hpa) hp
        · exact ⟨a, ha, hpa⟩

theorem mem_reconPairs (db : DB) (t : Nat) (r : String) (c : Nat) :
    (r, c) ∈ reconPairs db t ↔ pairEvents db t r c ≠ [] := by
  rw [reconPairs, List.mem_dedup, List.mem_filterMap, pairEvents, filter_ne_nil_iff]
  apply exists_congr; intro e
  constructor
  · rintro ⟨he, hf⟩
    refine ⟨he, ?_⟩
    by_cases hc : (e.table_id == t && e.sentinel.isNone) = true
    · rw [if_pos hc] at hf
      rcases Option.map_eq_some'.mp hf with ⟨cid, hcid, hpair⟩
      rw [Prod.mk.injEq] at hpair
      simp only [Bool.and_eq_true] at hc ⊢
      exact ⟨⟨⟨hc.1, hc.2⟩, by simp [hpair.1]⟩, by simp [hcid, hpair.2]⟩
    · rw [if_neg hc] at hf; cases hf
  · rintro ⟨he, hp⟩
    refine ⟨he, ?_⟩
    simp only [Bool.and_eq_true, beq_iff_eq] at hp
    obtain ⟨⟨⟨ht', hs⟩, hr⟩, hc⟩ := hp
    rw [if_pos (by simp [ht', hs]), hc]
    simp [hr]

/-- A row has a record in the raw reconstruction result iff it survives
`deleted_rows` and some currently-live column carries events for it. -/
theorem exists_reconUnsorted_iff {db : DB} (hwf : wf db) (t : Nat) (r : String) :
    (∃ rec ∈ reconUnsorted db t, rec.row_id = r) ↔
      isDeletedRow db t r = false ∧
        ∃ c ∈ db.columns, c.deleted = false ∧ pairEvents db t r c.id ≠ [] := by
  constructor
  · rintro ⟨rec, hmem, hrow⟩
    rw [reconUnsorted, List.mem_filterMap] at hmem
    obtain ⟨p, hp, hf⟩ := hmem
    by_cases hdel : isDeletedRow db t p.1 = true
    · rw [if_pos hdel] at hf; cases hf
    · rw [if_neg hdel] at hf
      rcases hle : latestEvent db t p.1 p.2 with - | e <;> rw [hle] at hf
      · cases hf
      · rcases hfc : db.columns.find? fun c => c.id == p.2 with - | col <;> rw [hfc] at hf
        · cases hf
        · dsimp only at hf
          by_cases hcd : col.deleted = true
          · rw [if_pos hcd] at hf; cases hf
          · rw [if_neg hcd] at hf
            have hrec := Option.some.injEq .. ▸ hf
            have hp1 : p.1 = r := by rw [← hrow, ← hrec]
            have hcid : col.id = p.2 := by simpa using List.find?_some hfc
            refine ⟨hp1 ▸ hdel |> eq_false_of_ne_true, col, List.mem_of_find?_eq_some hfc,
              eq_false_of_ne_true hcd, ?_⟩
            rw [hcid, ← hp1]
            exact (mem_reconPairs db t p.1 p.2).mp (by rwa [← Prod.mk.eta (p := p)] at hp)
  · rintro ⟨hdel, col, hcol, hcd, hpe⟩
    obtain ⟨e, hle, -, -⟩ := latestEvent_some hwf t r col.id hpe
    obtain ⟨hn, -, -, hcn, -, -, -⟩ := hwf
    have hfc : (db.columns.find? fun c => c.id == col.id) = some col :=
      find?_eq_some_of_key (·.id) _ _ col hcn hcol (by simp)
        fun y _ hy => by simpa using hy
    refine ⟨⟨r, col.id, col.name, col.display_order, e.value, e.timestamp⟩, ?_, rfl⟩
    rw [reconUnsorted, List.mem_filterMap]
    exact ⟨(r, col.id), (mem_reconPairs db t r col.id).mpr hpe,
      by simp [hdel, hle, hfc, hcd]⟩

/-- A row is in the `_empty_rows_sql` result iff it has a row-created event,
no non-lifecycle event, and is not in `deleted_rows`. -/
theorem exists_emptyRecs_iff (db : DB) (t : Nat) (r : String) :
    (∃ ts, (r, ts) ∈ emptyRecs db t) ↔
      hasNew db t r = true ∧ hasCellEvents db t r = false ∧
        isDeletedRow db t r = false := by
  constructor
  · rintro ⟨ts, hmem⟩
    rw [emptyRecs, List.mem_dedup, List.mem_map] at hmem
    obtain ⟨e, he, hpair⟩ := hmem
    rw [List.mem_filter] at he
    obtain ⟨hech, hcond⟩ := he
    simp only [Bool.and_eq_true, Bool.not_eq_true', beq_iff_eq] at hcond
    obtain ⟨⟨⟨het, hes⟩, hnc⟩, hdel⟩ := hcond
    rw [Prod.mk.injEq] at hpair
    obtain ⟨hr, -⟩ := hpair
    refine ⟨?_, hr ▸ hnc, hr ▸ hdel⟩
    rw [hasNew, List.any_eq_true]
    exact ⟨e, hech, by simp [het, hes, hr]⟩
  · rintro ⟨hnew, hnc, hdel⟩
    rw [hasNew, List.any_eq_true] at hnew
    obtain ⟨e, he, hcond⟩ := hnew
    simp only [Bool.and_eq_true, beq_iff_eq] at hcond
    obtain ⟨⟨het, hes⟩, her⟩ := hcond
    refine ⟨e.timestamp, ?_⟩
    rw [emptyRecs, List.mem_dedup, List.mem_map]
    refine ⟨e, List.mem_filter.mpr ⟨he, ?_⟩, by simp [her]⟩
    simp [het, hes, her, hnc, hdel]

theorem mem_rowIds_insertRec (acc : List RowOut) (rec : ReconRecord) (r : String) :
    r ∈ rowIds (insertRec acc rec) ↔ r ∈ rowIds acc ∨ r = rec.row_id := by
  rw [insertRec]
  by_cases h : (acc.any fun ro => ro.row_id == rec.row_id) = true
  · rw [if_pos h]
    have hids : rowIds (acc.map fun ro =>
        if ro.row_id == rec.row_id then
          { ro with
            cells := setCell ro.cells rec.column_name rec.value,
            last_modified :=
              if ro.last_modified < rec.timestamp then rec.timestamp
              else ro.last_modified }
        else ro) = rowIds acc := by
      rw [rowIds, List.map_map, rowIds]
      apply List.map_congr_left
      intro ro _
      by_cases hro : ro.row_id = rec.row_id <;> simp [hro]
    rw [hids]
    rw [List.any_eq_true] at h
    obtain ⟨ro, hro, heq⟩ := h
    constructor
    · exact Or.inl
    · rintro (h1 | rfl)
      · exact h1
      · exact List.mem_map.mpr ⟨ro, hro, by simpa using heq⟩
  · rw [if_neg h, rowIds, List.map_append]
    simp [rowIds]

theorem mem_rowIds_foldl_insertRec (recs : List ReconRecord) (acc : List RowOut) (r : String) :
    r ∈ rowIds (recs.foldl insertRec acc) ↔
      r ∈ rowIds acc ∨ ∃ rec ∈ recs, rec.row_id = r := by
  induction recs generalizing acc with
  | nil => simp
  | cons hd tl ih =>
    rw [List.foldl_cons, ih (insertRec acc hd), mem_rowIds_insertRec]
    constructor
    · rintro ((h1 | rfl) | ⟨rec, hrec, hr2⟩)
      · exact Or.inl h1
      · exact Or.inr ⟨hd, List.mem_cons_self _ _, rfl⟩
      · exact Or.inr ⟨rec, List.mem_cons_of_mem _ hrec, hr2⟩
    · rintro (h1 | ⟨rec, hrec, hr2⟩)
      · exact Or.inl (Or.inl h1)
      · rcases List.mem_cons.mp hrec with rfl | hrec
        · exact Or.inl (Or.inr hr2.symm)
        · exact Or.inr ⟨rec, hrec, hr2⟩

theorem mem_rowIds_insertEmpty (acc : List RowOut) (p : String × String) (r : String) :
    r ∈ rowIds (insertEmpty acc p) ↔ r ∈ rowIds acc ∨ r = p.1 := by
  rw [insertEmpty]
  by_cases h : (acc.any fun ro => ro.row_id == p.1) = true
  · rw [if_pos h]
    rw [List.any_eq_true] at h
    obtain ⟨ro, hro, heq⟩ := h
    constructor
    · exact Or.inl
    · rintro (h1 | rfl)
      · exact h1
      · exact List.mem_map.mpr ⟨ro, hro, by simpa using heq⟩
  · rw [if_neg h, rowIds, List.map_append]
    simp [rowIds]

theorem mem_rowIds_foldl_insertEmpty (ers : List (String × String)) (acc : List RowOut)
    (r : String) :
    r ∈ rowIds (ers.foldl insertEmpty acc) ↔
      r ∈ rowIds acc ∨ ∃ p ∈ ers, p.1 = r := by
  induction ers generalizing acc with
  | nil => simp
  | cons hd tl ih =>
    rw [List.foldl_cons, ih (insertEmpty acc hd), mem_rowIds_insertEmpty]
    constructor
    · rintro ((h1 | rfl) | ⟨p, hp, hr2⟩)
      · exact Or.inl h1
      · exact Or.inr ⟨hd, List.mem_cons_self _ _, rfl⟩
      · exact Or.inr ⟨p, List.mem_cons_of_mem _ hp, hr2⟩
    · rintro (h1 | ⟨p, hp, hr2⟩)
      · exact Or.inl (Or.inl h1)
      · rcases List.mem_cons.mp hp with rfl | hp
        · exact Or.inl (Or.inr hr2.symm)
        · exact Or.inr ⟨p, hp, hr2⟩

/-- The complete membership rule of `get_rows`: a row identifier appears iff
it survives `deleted_rows` and either some live column has events for it, or
it was created and never touched. -/
theorem mem_get_rows_iff {db : DB} (hwf : wf db) (t : Nat) (r : String) :
    r ∈ rowIds (get_rows db t) ↔
      isDeletedRow db t r = false ∧
        ((∃ c ∈ db.columns, c.deleted = false ∧ pairEvents db t r c.id ≠ []) ∨
          (hasNew db t r = true ∧ hasCellEvents db t r = false)) := by
  rw [get_rows, mem_rowIds_foldl_insertEmpty, mem_rowIds_foldl_insertRec]
  have hperm : ∀ rec : ReconRecord, rec ∈ reconRecords db t ↔ rec ∈ reconUnsorted db t :=
    fun rec => (List.perm_insertionSort _ _).mem_iff
  have h1 : (∃ rec ∈ reconRecords db t, rec.row_id = r) ↔
      isDeletedRow db t r = false ∧
        ∃ c ∈ db.columns, c.deleted = false ∧ pairEvents db t r c.id ≠ [] := by
    rw [← exists_reconUnsorted_iff hwf t r]
    exact exists_congr fun rec => and_congr_left' (hperm rec)
  have h2 : (∃ p ∈ emptyRecs db t, p.1 = r) ↔
      hasNew db t r = true ∧ hasCellEvents db t r = false ∧
        isDeletedRow db t r = false := by
    rw [← exists_emptyRecs_iff db t r]
    constructor
    · rintro ⟨p, hp, rfl⟩; exact ⟨p.2, hp⟩
    · rintro ⟨ts, hts⟩; exact ⟨(r, ts), hts, rfl⟩
  rw [h1, h2]
  simp only [rowIds, List.map_nil, List.not_mem_nil, false_or]
  constructor
  · rintro (⟨hd, hA⟩ | ⟨hN, hC, hd⟩)
    · exact ⟨hd, Or.inl hA⟩
    · exact ⟨hd, Or.inr ⟨hN, hC⟩⟩
  · rintro ⟨hd, hA | ⟨hN, hC⟩⟩
    · exact Or.inl ⟨hd, hA⟩
    · exact Or.inr ⟨hN, hC, hd⟩

/-! ## Cell contents of the reconstruction -/

theorem lookupCell_setCell_self (cs : List (String × Option String)) (n : String)
    (v : Option String) : lookupCell (setCell cs n v) n = some v := by
  rw [setCell]
  by_cases h : (cs.any fun p => p.1 == n) = true
  · rw [if_pos h, lookupCell, find?_map_eq]
    have hfun : (fun p : String × Option String =>
        (if p.1 == n then (n, v) else p).1 == n) = fun p => p.1 == n := by
      funext p
      by_cases hp : p.1 = n <;> simp [hp]
    rw [hfun]
    rcases hf : cs.find? fun p => p.1 == n with - | q
    · rw [List.any_eq_true] at h
      obtain ⟨p0, hp0, hpn⟩ := h
      rw [List.find?_eq_none] at hf
      exact absurd hpn (hf p0 hp0)
    · have hq : q.1 = n := by simpa using List.find?_some hf
      rw [hf]
      simp [hq]
  · rw [if_neg h, lookupCell, List.find?_append]
    have hnone : (cs.find? fun p => p.1 == n) = none := by
      rw [List.find?_eq_none]
      intro p hp hpn
      exact h (List.any_eq_true.mpr ⟨p, hp, hpn⟩)
    rw [hnone]
    simp [List.find?]

theorem lookupCell_setCell_ne (cs : List (String × Option String)) (n n' : String)
    (v : Option String) (hne : n' ≠ n) :
    lookupCell (setCell cs n v) n' = lookupCell cs n' := by
  rw [setCell]
  by_cases h : (cs.any fun p => p.1 == n) = true
  · rw [if_pos h, lookupCell, find?_map_eq]
    have hfun : (fun p : String × Option String =>
        (if p.1 == n then (n, v) else p).1 == n') = fun p => p.1 == n' := by
      funext p
      by_cases hp : p.1 = n
      · simp [hp, Ne.symm hne, hne]
      · simp [hp]
    rw [hfun, lookupCell]
    rcases hf : cs.find? fun p => p.1 == n' with - | q
    · rw [hf]; rfl
    · have hq' : q.1 = n' := by simpa using List.find?_some hf
      rw [hf]
      have : q.1 = n → False := fun hh => hne (hq' ▸ hh)
      simp only [Option.map_some']
      have hqn : (q.1 == n) = false := by
        rcases hq2 : q.1 == n with - | -
        · rfl
        · exact absurd (by simpa using hq2) this
      simp [hqn]
  · rw [if_neg h, lookupCell, List.find?_append, lookupCell]
    have hnone : ([(n, v)].find? fun p => p.1 == n') = none := by
      rw [List.find?_cons_of_neg _ (by simp [Ne.symm hne])]
      rfl
    rcases hf : cs.find? fun p => p.1 == n' with - | q <;>
      simp [hf, hnone, Option.or]

theorem cellsFor_map_update (acc : List RowOut) (f : RowOut → RowOut)
    (hf : ∀ ro, (f ro).row_id = ro.row_id) (r : String) :
    cellsFor r (acc.map f) =
      ((acc.find? fun ro => ro.row_id == r).map f).map (·.cells) := by
  rw [cellsFor, find?_map_eq]
  have hfun : (fun ro : RowOut => (f ro).row_id == r) = fun ro => ro.row_id == r := by
    funext ro; rw [hf]
  rw [hfun]

/-- The effect of one reconstruction record on one row's cells object. -/
theorem cellsFor_insertRec (acc : List RowOut) (rec : ReconRecord) (r : String) :
    cellsFor r (insertRec acc rec) =
      if rec.row_id = r then
        match cellsFor r acc with
        | some cs => some (setCell cs rec.column_name rec.value)
        | none => some [(rec.column_name, rec.value)]
      else cellsFor r acc := by
  rw [insertRec]
  by_cases hany : (acc.any fun ro => ro.row_id == rec.row_id) = true
  · rw [if_pos hany, cellsFor_map_update _ _ (fun ro => by
      by_cases hro : ro.row_id = rec.row_id <;> simp [hro])]
    by_cases hr : rec.row_id = r
    · rw [if_pos hr]
      rcases hfr : acc.find? fun ro => ro.row_id == r with - | ro
      · rw [List.any_eq_true] at hany
        obtain ⟨ro, hro, hron⟩ := hany
        rw [List.find?_eq_none] at hfr
        exact absurd (by simpa [hr] using hron) (hfr ro hro)
      · have hror : ro.row_id = r := by simpa using List.find?_some hfr
        rw [cellsFor, hfr]
        simp [hror, hr]
    · rw [if_neg hr, cellsFor]
      rcases hfr : acc.find? fun ro => ro.row_id == r with - | ro
      · rw [hfr]; rfl
      · have hror : ro.row_id = r := by simpa using List.find?_some hfr
        have hne2 : ro.row_id = rec.row_id → False := fun hh => hr (by rw [← hh, hror])
        have hrne : (ro.row_id == rec.row_id) = false := by
          rcases hq2 : ro.row_id == rec.row_id with - | -
          · rfl
          · exact absurd (by simpa using hq2) hne2
        rw [hfr]
        simp only [Option.map_some', hrne]
        rw [if_neg (by simp)]
  · rw [if_neg hany, cellsFor, List.find?_append]
    by_cases hr : rec.row_id = r
    · rw [if_pos hr]
      have hnone : (acc.find? fun ro => ro.row_id == r) = none := by
        rw [List.find?_eq_none]
        intro ro hro hror
        exact hany (List.any_eq_true.mpr ⟨ro, hro, by simpa [hr] using hror⟩)
      rw [hnone, cellsFor, hnone]
      simp [List.find?, hr]
    · have hnone : (([⟨rec.row_id, [(rec.column_name, rec.value)], rec.timestamp⟩] :
          List RowOut).find? fun ro => ro.row_id == r) = none := by
        rw [List.find?_cons_of_neg _ (by simpa using hr)]
        rfl
      rw [if_neg hr, hnone, cellsFor]
      rcases hfr : acc.find? fun ro => ro.row_id == r with - | ro <;>
        simp [hfr, Option.or]

theorem applyRecs_cons (o : Option (List (String × Option String))) (hd : ReconRecord)
    (tl : List ReconRecord) :
    applyRecs o (hd :: tl) =
      applyRecs
        (match o with
          | some cs => some (setCell cs hd.column_name hd.value)
          | none => some [(hd.column_name, hd.value)])
        tl := rfl

theorem cellsFor_foldl_insertRec (recs : List ReconRecord) (acc : List RowOut) (r : String) :
    cellsFor r (recs.foldl insertRec acc) =
      applyRecs (cellsFor r acc) (recs.filter fun rec => rec.row_id == r) := by
  induction recs generalizing acc with
  | nil => rfl
  | cons hd tl ih =>
    rw [List.foldl_cons, ih, List.filter_cons]
    by_cases hr : hd.row_id = r
    · rw [if_pos (by simpa using hr), cellsFor_insertRec, if_pos hr, applyRecs_cons]
    · rw [if_neg (by simpa using hr), cellsFor_insertRec, if_neg hr]

theorem applyRecs_isSome (rs : List ReconRecord) (o : Option (List (String × Option String)))
    (h : o.isSome ∨ rs ≠ []) : (applyRecs o rs).isSome := by
  induction rs generalizing o with
  | nil =>
    rcases h with h | h
    · exact h
    · exact absurd rfl h
  | cons hd tl ih =>
    rw [applyRecs_cons]
    apply ih
    left
    cases o <;> rfl

theorem lookup_applyRecs_pres (rs : List ReconRecord) (cs0 : List (String × Option String))
    (n : String) (v : Option String)
    (hall : ∀ rec ∈ rs, rec.column_name = n → rec.value = v)
    (h0 : lookupCell cs0 n = some v) :
    ∀ cs, applyRecs (some cs0) rs = some cs → lookupCell cs n = some v := by
  induction rs generalizing cs0 with
  | nil =>
    intro cs hcs
    rw [applyRecs] at hcs
    cases hcs
    exact h0
  | cons hd tl ih =>
    intro cs hcs
    rw [applyRecs_cons] at hcs
    refine ih (setCell cs0 hd.column_name hd.value)
      (fun rec hrec => hall rec (List.mem_cons_of_mem _ hrec)) ?_ cs hcs
    by_cases hn : hd.column_name = n
    · rw [← hn, lookupCell_setCell_self, hall hd (List.mem_cons_self _ _) hn]
    · rw [lookupCell_setCell_ne _ _ _ _ (fun hh => hn hh.symm)]
      exact h0

theorem lookup_applyRecs_of_mem (rs : List ReconRecord)
    (o : Option (List (String × Option String))) (n : String) (v : Option String)
    (hmem : ∃ rec ∈ rs, rec.column_name = n)
    (hall : ∀ rec ∈ rs, rec.column_name = n → rec.value = v) :
    ∀ cs, applyRecs o rs = some cs → lookupCell cs n = some v := by
  induction rs generalizing o with
  | nil =>
    obtain ⟨rec, hrec, -⟩ := hmem
    cases hrec
  | cons hd tl ih =>
    intro cs hcs
    rw [applyRecs_cons] at hcs
    by_cases hn : hd.column_name = n
    · have hv : hd.value = v := hall hd (List.mem_cons_self _ _) hn
      cases o with
      | some cs0 =>
        refine lookup_applyRecs_pres tl (setCell cs0 hd.column_name hd.value) n v
          (fun rec hrec => hall rec (List.mem_cons_of_mem _ hrec)) ?_ cs hcs
        rw [← hn, lookupCell_setCell_self, hv]
      | none =>
        refine lookup_applyRecs_pres tl [(hd.column_name, hd.value)] n v
          (fun rec hrec => hall rec (List.mem_cons_of_mem _ hrec)) ?_ cs hcs
        rw [← hn, ← hv, lookupCell]
        rw [List.find?_cons_of_pos _ (by simp)]
        rfl
    · have hmem' : ∃ rec ∈ tl, rec.column_name = n := by
        rcases hmem with ⟨rec, hrec, hrn⟩
        rcases List.mem_cons.mp hrec with rfl | hrec
        · exact absurd hrn hn
        · exact ⟨rec, hrec, hrn⟩
      exact ih _ hmem' (fun rec hrec => hall rec (List.mem_cons_of_mem _ hrec)) cs hcs

theorem cellsFor_insertEmpty_pres (acc : List RowOut) (p : String × String) (r : String)
    (h : (cellsFor r acc).isSome = true) :
    cellsFor r (insertEmpty acc p) = cellsFor r acc := by
  rw [insertEmpty]
  by_cases hany : (acc.any fun ro => ro.row_id == p.1) = true
  · rw [if_pos hany]
  · rw [if_neg hany, cellsFor, List.find?_append]
    rcases hfr : acc.find? fun ro => ro.row_id == r with - | ro
    · rw [cellsFor, hfr] at h
      cases h
    · rw [hfr, cellsFor, hfr]
      rfl

theorem cellsFor_foldl_insertEmpty (ers : List (String × String)) (acc : List RowOut)
    (r : String) (h : (cellsFor r acc).isSome = true) :
    cellsFor r (ers.foldl insertEmpty acc) = cellsFor r acc := by
  induction ers generalizing acc with
  | nil => rfl
  | cons hd tl ih =>
    rw [List.foldl_cons, ih _ (by rw [cellsFor_insertEmpty_pres _ _ _ h]; exact h),
      cellsFor_insertEmpty_pres _ _ _ h]

/-- Every raw reconstruction record of row `r` carrying the name of a live
column of the table reports the value of that column's latest event: the
well-formedness invariants force the record's column to be the named one. -/
theorem reconUnsorted_value {db : DB} (hwf : wf db) (t : Nat) (r : String)
    (col : ColumnRow) (hcol : col ∈ db.columns) (htid : col.table_id = t)
    (rec : ReconRecord) (hrec : rec ∈ reconUnsorted db t) (hrow : rec.row_id = r)
    (hname : rec.column_name = col.name) :
    ∃ e, latestEvent db t r col.id = some e ∧ rec.value = e.value := by
  rw [reconUnsorted, List.mem_filterMap] at hrec
  obtain ⟨p, hp, hf⟩ := hrec
  by_cases hdel : isDeletedRow db t p.1 = true
  · rw [if_pos hdel] at hf; cases hf
  · rw [if_neg hdel] at hf
    rcases hle : latestEvent db t p.1 p.2 with - | e <;> rw [hle] at hf
    · cases hf
    · rcases hfc : db.columns.find? fun c => c.id == p.2 with - | col' <;> rw [hfc] at hf
      · cases hf
      · dsimp only at hf
        by_cases hcd' : col'.deleted = true
        · rw [if_pos hcd'] at hf; cases hf
        · rw [if_neg hcd'] at hf
          have hrec := (Option.some.injEq ..).mp hf
          have hp1 : p.1 = r := by rw [← hrow, ← hrec]
          have hname' : col'.name = col.name := by rw [← hname, ← hrec]
          have hcid : col'.id = p.2 := by simpa using List.find?_some hfc
          have hcol' : col' ∈ db.columns := List.mem_of_find?_eq_some hfc
          have hpe : pairEvents db t p.1 p.2 ≠ [] :=
            (mem_reconPairs db t p.1 p.2).mp (by rwa [← Prod.mk.eta (p := p)] at hp)
          obtain ⟨hn, -, -, -, -, huniq, hevcol⟩ := hwf
          obtain ⟨e0, he0⟩ := List.exists_mem_of_ne_nil _ hpe
          have he0m := List.mem_filter.mp he0
          have he0cond := he0m.2
          simp only [Bool.and_eq_true, beq_iff_eq] at he0cond
          have htid' : col'.table_id = t := by
            have := hevcol e0 he0m.1 col' hcol' (by rw [he0cond.2, hcid])
            rw [this, he0cond.1.1.1]
          have hcc : col = col' := huniq col hcol col' hcol' (by rw [htid, htid'])
            hname'.symm
          have hvalue : rec.value = e.value := by rw [← hrec]
          refine ⟨e, ?_, hvalue⟩
          rw [hcc, hcid, ← hp1]
          exact hle

/-- The cell value `get_rows` reports for a surviving row and a live column
of the table equals the value of the latest non-lifecycle event of the
`(row, column)` pair. -/
theorem reportedCell_charact {db : DB} (hwf : wf db) (t : Nat) (r : String)
    (col : ColumnRow) (hcol : col ∈ db.columns) (htid : col.table_id = t)
    (hcd : col.deleted = false) (hpe : pairEvents db t r col.id ≠ [])
    (hdel : isDeletedRow db t r = false) :
    ∃ e, latestEvent db t r col.id = some e ∧
      reportedCell db t r col.name = some e.value := by
  obtain ⟨e, hle, -, -⟩ := latestEvent_some hwf t r col.id hpe
  have hfc : (db.columns.find? fun c => c.id == col.id) = some col :=
    find?_eq_some_of_key (·.id) _ _ col hwf.2.2.2.1 hcol (by simp)
      fun y _ hy => by simpa using hy
  have hrec0 : (⟨r, col.id, col.name, col.display_order, e.value, e.timestamp⟩ :
      ReconRecord) ∈ reconUnsorted db t := by
    rw [reconUnsorted, List.mem_filterMap]
    exact ⟨(r, col.id), (mem_reconPairs db t r col.id).mpr hpe,
      by simp [hdel, hle, hfc, hcd]⟩
  have hrec0' : (⟨r, col.id, col.name, col.display_order, e.value, e.timestamp⟩ :
      ReconRecord) ∈ reconRecords db t :=
    (List.perm_insertionSort _ _).mem_iff.mpr hrec0
  set filtered := (reconRecords db t).filter fun rec => rec.row_id == r with hfiltered
  have hmemf : (⟨r, col.id, col.name, col.display_order, e.value, e.timestamp⟩ :
      ReconRecord) ∈ filtered :=
    List.mem_filter.mpr ⟨hrec0', by simp⟩
  have hbase : cellsFor r ((reconRecords db t).foldl insertRec []) =
      applyRecs none filtered := by
    rw [cellsFor_foldl_insertRec]
    rfl
  have hsomeb : (applyRecs none filtered).isSome :=
    applyRecs_isSome _ _ (Or.inr (List.ne_nil_of_mem hmemf))
  obtain ⟨cs, hcs⟩ := Option.isSome_iff_exists.mp hsomeb
  have hlook : lookupCell cs col.name = some e.value := by
    refine lookup_applyRecs_of_mem filtered none col.name e.value
      ⟨_, hmemf, rfl⟩ ?_ cs hcs
    intro rec hrecf hrname
    have hrecm := List.mem_filter.mp hrecf
    have hrrow : rec.row_id = r := by simpa using hrecm.2
    obtain ⟨e', hle', hval⟩ := reconUnsorted_value hwf t r col hcol htid rec
      ((List.perm_insertionSort _ _).mem_iff.mp hrecm.1) hrrow hrname
    rw [hval, Option.some.inj (hle'.symm.trans hle)]
  refine ⟨e, hle, ?_⟩
  rw [reportedCell, get_rows, cellsFor_foldl_insertEmpty _ _ _ (by rw [hbase, hcs]; rfl),
    hbase, hcs]
  exact hlook

/-! ## Effects of appending a lifecycle event -/

/-- Appending an event with a NULL `column_id` preserves well-formedness. -/
theorem wf_appendCell_noCol {db : DB} (hwf : wf db) (t : Nat) (rid : String)
    (sent v : Option String) (now : String) :
    wf (appendCell db t rid none sent v now) := by
  obtain ⟨hn, hlt, hpos, hcn, htn, huniq, hevcol⟩ := hwf
  refine ⟨?_, ?_, by simp only [appendCell]; omega, hcn, htn, huniq, ?_⟩
  · simp only [appendCell, List.map_append, List.map_cons, List.map_nil]
    rw [List.nodup_append]
    refine ⟨hn, List.nodup_singleton _, ?_⟩
    intro i hi hi'
    have hieq : i = db.next_event_id := by simpa using hi'
    obtain ⟨e, he, hei⟩ := List.mem_map.mp hi
    exact absurd (hei.trans hieq) (Nat.ne_of_lt (hlt e he))
  · intro e he
    simp only [appendCell, List.mem_append, List.mem_singleton] at he
    simp only [appendCell]
    rcases he with he | rfl
    · exact Nat.lt_succ_of_lt (hlt e he)
    · exact Nat.lt_succ_self _
  · intro e he c hc hec
    simp only [appendCell, List.mem_append, List.mem_singleton] at he
    rcases he with he | rfl
    · exact hevcol e he c hc hec
    · cases hec

theorem foldl_max_lt (l : List α) (g : α → Nat) (a bound : Nat) (ha : a < bound)
    (hg : ∀ e ∈ l, g e < bound) : l.foldl (fun m e => max m (g e)) a < bound := by
  induction l generalizing a with
  | nil => exact ha
  | cons h t ih =>
    rw [List.foldl_cons]
    exact ih (max a (g h)) (max_lt ha (hg h (List.mem_cons_self _ _)))
      fun e he => hg e (List.mem_cons_of_mem _ he)

/-- After appending a `'__deleted__'` event with value `'1'`, the row is in
`deleted_rows`: the fresh event id strictly dominates every older id. -/
theorem isDeletedRow_append_deleted {db : DB} (hwf : wf db) (t : Nat) (r : String)
    (now : String) :
    isDeletedRow (appendCell db t r none (some "__deleted__") (some "1") now) t r = true := by
  obtain ⟨-, hlt, hpos, -, -, -, -⟩ := hwf
  rw [isDeletedRow]
  have hsplit :
      (appendCell db t r none (some "__deleted__") (some "1") now).cell_history.filter
        (fun e => e.table_id == t && e.sentinel == some "__deleted__" && e.row_id == r) =
      (db.cell_history.filter
        (fun e => e.table_id == t && e.sentinel == some "__deleted__" && e.row_id == r)) ++
        [⟨db.next_event_id, t, r, none, some "__deleted__", some "1", now⟩] := by
    rw [appendCell]
    simp only [List.filter_append]
    rw [List.filter_cons]
    simp
  rw [hsplit, Bool.and_eq_true]
  refine ⟨by simp, ?_⟩
  rw [List.foldl_append, List.foldl_append]
  simp only [List.foldl_cons, List.foldl_nil]
  rw [decide_eq_true_eq]
  have hb : ∀ e ∈ db.cell_history.filter
      (fun e => e.table_id == t && e.sentinel == some "__deleted__" && e.row_id == r),
      (if e.value == some "0" then e.id else 0) < db.next_event_id := by
    intro e he
    by_cases hv : (e.value == some "0") = true
    · rw [if_pos hv]
      exact hlt e (List.mem_of_mem_filter he)
    · rw [if_neg hv]
      omega
  have hA0 := foldl_max_lt _ _ 0 db.next_event_id (by omega) hb
  have h1 : ((some "1" : Option String) == some "1") = true := by decide
  have h0 : ((some "1" : Option String) == some "0") = false := by decide
  simp only [h1, h0, if_true, if_false]
  calc max (List.foldl (fun m e => max m (if e.value == some "0" then e.id else 0)) 0
        (db.cell_history.filter
          (fun e => e.table_id == t && e.sentinel == some "__deleted__" && e.row_id == r))) 0
      < db.next_event_id := by rw [Nat.max_zero]; exact hA0
    _ ≤ max (List.foldl (fun m e => max m (if e.value == some "1" then e.id else 0)) 0
        (db.cell_history.filter
          (fun e => e.table_id == t && e.sentinel == some "__deleted__" && e.row_id == r)))
        db.next_event_id := Nat.le_max_right _ _

/-! ## The blocking condition of `delete_row` -/

theorem refCount_pos_iff (db : DB) (ft cid : Nat) (rid : String) :
    0 < refCount db ft cid rid ↔
      ∃ r ∈ rowsOfCol db ft cid, isDeletedRow db ft r = false ∧
        valueAt db ft r cid = some rid := by
  rw [refCount, List.length_pos_iff_exists_mem]
  constructor
  · rintro ⟨r, hr⟩
    have hm := List.mem_filter.mp hr
    refine ⟨r, hm.1, ?_, ?_⟩
    · have := hm.2
      simp only [Bool.and_eq_true, Bool.not_eq_true'] at this
      exact this.1
    · have := hm.2
      simp only [Bool.and_eq_true, beq_iff_eq] at this
      exact this.2
  · rintro ⟨r, hr, hdel, hval⟩
    exact ⟨r, List.mem_filter.mpr ⟨hr, by simp [hdel, hval]⟩⟩

theorem mem_inboundRefs_iff {db : DB} (hwf : wf db) (t : Nat) (x : Nat × Nat × String) :
    x ∈ inboundRefs db t ↔
      ∃ fk ∈ db.foreign_keys, fk.deleted = false ∧ fk.to_table_id = t ∧
        ∃ c ∈ db.columns, c.id = fk.from_column_id ∧ c.deleted = false ∧
          ∃ tb ∈ db.tables, tb.id = c.table_id ∧ tb.deleted = false ∧
            x = (c.table_id, fk.from_column_id, tb.name) := by
  obtain ⟨-, -, -, hcn, htn, -, -⟩ := hwf
  rw [inboundRefs, List.mem_filterMap]
  constructor
  · rintro ⟨fk, hfk, hf⟩
    by_cases hcond : (fk.to_table_id == t && !fk.deleted) = true
    · rw [if_pos hcond] at hf
      simp only [Bool.and_eq_true, beq_iff_eq, Bool.not_eq_true'] at hcond
      rcases hfc : db.columns.find? fun c => c.id == fk.from_column_id with - | c <;>
        rw [hfc] at hf
      · cases hf
      · dsimp only at hf
        by_cases hcd : c.deleted = true
        · rw [if_pos hcd] at hf; cases hf
        · rw [if_neg hcd] at hf
          rcases hft : db.tables.find? fun tb => tb.id == c.table_id with - | tb <;>
            rw [hft] at hf
          · cases hf
          · dsimp only at hf
            by_cases htd : tb.deleted = true
            · rw [if_pos htd] at hf; cases hf
            · rw [if_neg htd] at hf
              have hx := (Option.some.injEq ..).mp hf
              exact ⟨fk, hfk, hcond.2, hcond.1, c, List.mem_of_find?_eq_some hfc,
                by simpa using List.find?_some hfc, eq_false_of_ne_true hcd,
                tb, List.mem_of_find?_eq_some hft,
                by simpa using List.find?_some hft, eq_false_of_ne_true htd, hx.symm⟩
    · rw [if_neg hcond] at hf; cases hf
  · rintro ⟨fk, hfk, hfd, hft, c, hc, hcid, hcd, tb, htb, htbid, htbd, hx⟩
    refine ⟨fk, hfk, ?_⟩
    rw [if_pos (by simp [hft, hfd])]
    have hfc : (db.columns.find? fun c' => c'.id == fk.from_column_id) = some c :=
      find?_eq_some_of_key (·.id) _ _ c hcn hc (by simp [hcid])
        fun y _ hy => by simp only [beq_iff_eq] at hy; simp [hy, hcid]
    have hftb : (db.tables.find? fun tb' => tb'.id == c.table_id) = some tb :=
      find?_eq_some_of_key (·.id) _ _ tb htn htb (by simp [htbid])
        fun y _ hy => by simp only [beq_iff_eq] at hy; simp [hy, htbid]
    rw [hfc]
    dsimp only
    rw [if_neg (by simp [hcd]), hftb]
    dsimp only
    rw [if_neg (by simp [htbd]), hx]

theorem blockingRef_iff {db : DB} (hwf : wf db) (t : Nat) (rid : String) :
    blockingRef db t rid ↔
      ∃ x ∈ inboundRefs db t, 0 < refCount db x.1 x.2.1 rid := by
  constructor
  · rintro ⟨fk, hfk, hfd, hft, c, hc, hcid, hcd, ⟨tb, htb, htbid, htbd⟩, hrow⟩
    refine ⟨(c.table_id, fk.from_column_id, tb.name),
      (mem_inboundRefs_iff hwf t _).mpr
        ⟨fk, hfk, hfd, hft, c, hc, hcid, hcd, tb, htb, htbid, htbd, rfl⟩, ?_⟩
    rw [refCount_pos_iff]
    simpa [hcid] using hrow
  · rintro ⟨x, hx, hcnt⟩
    obtain ⟨fk, hfk, hfd, hft, c, hc, hcid, hcd, tb, htb, htbid, htbd, hx⟩ :=
      (mem_inboundRefs_iff hwf t x).mp hx
    refine ⟨fk, hfk, hfd, hft, c, hc, hcid, hcd, ⟨tb, htb, htbid, htbd⟩, ?_⟩
    rw [hx] at hcnt
    simpa [hcid] using (refCount_pos_iff db c.table_id fk.from_column_id rid).mp hcnt

/-! ## The duplicate scan of `set_column_unique` -/

theorem mem_colCurrentValues (db : DB) (t cid : Nat) (q : String × String) :
    q ∈ colCurrentValues db t cid ↔
      q.1 ∈ rowsOfCol db t cid ∧ isDeletedRow db t q.1 = false ∧ q.2 ≠ "" ∧
        valueAt db t q.1 cid = some q.2 := by
  rw [colCurrentValues, List.mem_filterMap]
  constructor
  · rintro ⟨r, hr, hf⟩
    by_cases hdel : isDeletedRow db t r = true
    · rw [if_pos hdel] at hf; cases hf
    · rw [if_neg hdel] at hf
      rcases hv : valueAt db t r cid with - | v <;> rw [hv] at hf
      · cases hf
      · dsimp only at hf
        by_cases hve : v = ""
        · rw [if_pos hve] at hf; cases hf
        · rw [if_neg hve] at hf
          have hq := (Option.some.injEq ..).mp hf
          rw [← hq]
          exact ⟨hr, eq_false_of_ne_true hdel, hve, hv⟩
  · rintro ⟨hr, hdel, hne, hv⟩
    refine ⟨q.1, hr, ?_⟩
    rw [if_neg (by simp [hdel]), hv]
    dsimp only
    rw [if_neg hne]

theorem nodup_colCurrentValues (db : DB) (t cid : Nat) :
    (colCurrentValues db t cid).Nodup := by
  apply List.Nodup.of_map Prod.fst
  apply List.Nodup.sublist
    (filterMap_fst_sublist _ _ fun a b hab => ?_) (List.nodup_dedup _)
  by_cases hdel : isDeletedRow db t a = true
  · rw [if_pos hdel] at hab; cases hab
  · rw [if_neg hdel] at hab
    rcases hv : valueAt db t a cid with - | v <;> rw [hv] at hab
    · cases hab
    · dsimp only at hab
      by_cases hve : v = ""
      · rw [if_pos hve] at hab; cases hab
      · rw [if_neg hve] at hab
        rw [← (Option.some.injEq ..).mp hab]

theorem dupExists_iff (db : DB) (t cid : Nat) :
    dupExists db t cid = true ↔ dupProp db t cid := by
  rw [dupExists, List.any_eq_true]
  constructor
  · rintro ⟨p, hp, hcnt⟩
    rw [decide_eq_true_eq] at hcnt
    have hnd : ((colCurrentValues db t cid).filter fun q => q.2 == p.2).Nodup :=
      (nodup_colCurrentValues db t cid).filter _
    obtain ⟨q1, hq1, q2, hq2, hq12⟩ := two_mem_of_one_lt_length hnd hcnt
    have hm1 := List.mem_filter.mp hq1
    have hm2 := List.mem_filter.mp hq2
    have hv1 := (mem_colCurrentValues db t cid q1).mp hm1.1
    have hv2 := (mem_colCurrentValues db t cid q2).mp hm2.1
    have heqv1 : q1.2 = p.2 := by simpa using hm1.2
    have heqv2 : q2.2 = p.2 := by simpa using hm2.2
    have hr12 : q1.1 ≠ q2.1 := by
      intro hh
      exact hq12 (Prod.ext hh (heqv1.trans heqv2.symm))
    refine ⟨q1.1, hv1.1, q2.1, hv2.1, hr12, hv1.2.1, hv2.2.1, ?_, ?_, ?_⟩
    · rw [hv1.2.2.2, hv2.2.2.2, heqv1, heqv2]
    · rw [hv1.2.2.2]; simp
    · rw [hv1.2.2.2]; simpa using hv1.2.2.1
  · rintro ⟨r1, hr1, r2, hr2, hne, hd1, hd2, heq, hnn, hne'⟩
    rcases hval1 : valueAt db t r1 cid with - | v
    · exact absurd hval1 hnn
    · have hv : v ≠ "" := fun hh => hne' (by rw [hval1, hh])
      have hval2 : valueAt db t r2 cid = some v := by rw [← heq, hval1]
      have hm1 : (r1, v) ∈ colCurrentValues db t cid :=
        (mem_colCurrentValues db t cid (r1, v)).mpr ⟨hr1, hd1, hv, hval1⟩
      have hm2 : (r2, v) ∈ colCurrentValues db t cid :=
        (mem_colCurrentValues db t cid (r2, v)).mpr ⟨hr2, hd2, hv, hval2⟩
      refine ⟨(r1, v), hm1, ?_⟩
      rw [decide_eq_true_eq]
      exact one_lt_length_of_two_mem
        (List.mem_filter.mpr ⟨hm1, by simp⟩)
        (List.mem_filter.mpr ⟨hm2, by simp⟩)
        (by simp [hne])

/-! ## The write loop of `update_row` -/

theorem updEvents_cons_none {db : DB} {t : Nat} {rid now : String} {start : Nat}
    {p : String × Option String} {ps : List (String × Option String)}
    (h : colLookup db t p.1 = none) :
    updEvents db t rid now start (p :: ps) = updEvents db t rid now start ps := by
  rw [updEvents, h]

theorem updEvents_cons_some {db : DB} {t : Nat} {rid now : String} {start : Nat}
    {p : String × Option String} {ps : List (String × Option String)} {col : ColumnRow}
    (h : colLookup db t p.1 = some col) :
    updEvents db t rid now start (p :: ps) =
      ⟨start, t, rid, some col.id, none, p.2, now⟩ ::
        updEvents db t rid now (start + 1) ps := by
  rw [updEvents, h]

theorem recognizedCells_cons_none {db : DB} {t : Nat}
    {p : String × Option String} {ps : List (String × Option String)}
    (h : colLookup db t p.1 = none) :
    recognizedCells db t (p :: ps) = recognizedCells db t ps := by
  simp [recognizedCells, List.filter_cons, h]

theorem recognizedCells_cons_some {db : DB} {t : Nat}
    {p : String × Option String} {ps : List (String × Option String)} {col : ColumnRow}
    (h : colLookup db t p.1 = some col) :
    recognizedCells db t (p :: ps) = p :: recognizedCells db t ps := by
  simp [recognizedCells, List.filter_cons, h]

theorem updEvents_length (db : DB) (t : Nat) (rid now : String) (start : Nat)
    (cells : List (String × Option String)) :
    (updEvents db t rid now start cells).length = (recognizedCells db t cells).length := by
  induction cells generalizing start with
  | nil => rfl
  | cons p ps ih =>
    rcases hc : colLookup db t p.1 with - | col
    · rw [updEvents_cons_none hc, recognizedCells_cons_none hc]
      exact ih start
    · rw [updEvents_cons_some hc, recognizedCells_cons_some hc]
      simp only [List.length_cons]
      rw [ih (start + 1)]

theorem updEvents_fields (db : DB) (t : Nat) (rid now : String) (start : Nat)
    (cells : List (String × Option String)) :
    ∀ e ∈ updEvents db t rid now start cells,
      e.table_id = t ∧ e.row_id = rid ∧ e.sentinel = none ∧ e.timestamp = now := by
  induction cells generalizing start with
  | nil => intro e he; cases he
  | cons p ps ih =>
    intro e he
    rcases hc : colLookup db t p.1 with - | col
    · rw [updEvents_cons_none hc] at he
      exact ih start e he
    · rw [updEvents_cons_some hc] at he
      rcases List.mem_cons.mp he with rfl | he
      · exact ⟨rfl, rfl, rfl, rfl⟩
      · exact ih (start + 1) e he

/-- The `update_row` write loop appends exactly one event per recognized
entry, ids consecutive from the AUTOINCREMENT counter, and touches nothing
else in the state. -/
theorem update_write_fold (db : DB) (t : Nat) (rid : String)
    (cells : List (String × Option String)) (now : String) (d : DB) :
    (cells.foldl
      (fun d p =>
        match colLookup db t p.1 with
        | some col => appendCell d t rid (some col.id) none p.2 now
        | none => d)
      d) =
    { d with
      cell_history := d.cell_history ++ updEvents db t rid now d.next_event_id cells,
      next_event_id := d.next_event_id + (recognizedCells db t cells).length } := by
  induction cells generalizing d with
  | nil => simp [updEvents, recognizedCells]
  | cons p ps ih =>
    rw [List.foldl_cons]
    rcases hc : colLookup db t p.1 with - | col
    · have hinit : (match (none : Option ColumnRow) with
          | some col => appendCell d t rid (some col.id) none p.2 now
          | none => d) = d := rfl
      rw [hinit, ih d, updEvents_cons_none hc, recognizedCells_cons_none hc]
    · have hinit : (match some col with
          | some col => appendCell d t rid (some col.id) none p.2 now
          | none => d) = appendCell d t rid (some col.id) none p.2 now := rfl
      rw [hinit, ih (appendCell d t rid (some col.id) none p.2 now),
        updEvents_cons_some hc, recognizedCells_cons_some hc]
      simp only [appendCell]
      congr 1
      · rw [List.append_assoc]
        rfl
      · simp only [List.length_cons]
        omega

/-- Closed form of `update_row`: validation first; then the write loop
appends the recognized entries and the `inserted` flag decides the result. -/
theorem update_row_eq (db : DB) (t : Nat) (rid : String)
    (cells : List (String × Option String)) (now : String) :
    update_row db t rid cells now =
      match update_validate db t cells rid with
      | some e => (db, .error e)
      | none =>
        ({ db with
            cell_history :=
              db.cell_history ++ updEvents db t rid now db.next_event_id cells,
            next_event_id :=
              db.next_event_id + (recognizedCells db t cells).length },
          if cells.any fun p => (colLookup db t p.1).isSome then .ok rid
          else .error "No valid columns found in update") := by
  rw [update_row]
  rcases hv : update_validate db t cells rid with - | err
  · have hfold := update_write_fold db t rid cells now db
    by_cases hany : (cells.any fun p => (colLookup db t p.1).isSome) = true
    · simp only [hfold, hany, if_true]
    · simp only [hfold, hany, if_false, Bool.false_eq_true]
  · rfl

theorem create_row_err {db : DB} {t : Nat} {rid : String}
    {cells : List (String × Option String)} {err : String} (now : String)
    (h : create_validate db t cells rid = some err) :
    create_row db t rid cells now = (db, .error err) := by
  rw [create_row, h]

theorem create_row_ok_snd {db : DB} {t : Nat} {rid : String}
    {cells : List (String × Option String)} (now : String)
    (h : create_validate db t cells rid = none) :
    (create_row db t rid cells now).2 = .ok rid := by
  rw [create_row, h]

theorem delete_row_of_blocker_none {db : DB} {t : Nat} {rid : String} (now : String)
    (h : delete_row_blocker db t rid = none) :
    delete_row db t rid now =
      (appendCell db t rid none (some "__deleted__") (some "1") now, .ok ()) := by
  rw [delete_row, h]

theorem delete_row_of_blocker_some {db : DB} {t : Nat} {rid : String}
    {cnt : Nat} {tname : String} (now : String)
    (h : delete_row_blocker db t rid = some (cnt, tname)) :
    delete_row db t rid now =
      (db, .error s!"Cannot delete: {cnt} row(s) in \x22{tname}\x22 reference this row") := by
  rw [delete_row, h]

theorem update_validate_none_of_unrecognized {db : DB} {t : Nat}
    {cells : List (String × Option String)} {rid : String}
    (h : ∀ p ∈ cells, colLookup db t p.1 = none) :
    update_validate db t cells rid = none := by
  rw [update_validate, List.findSome?_eq_none_iff]
  intro p hp
  rw [h p hp]

theorem eq_of_key_nodup (key : α → Nat) (l : List α) (hn : (l.map key).Nodup)
    {a b : α} (ha : a ∈ l) (hb : b ∈ l) (h : key a = key b) : a = b := by
  induction l with
  | nil => cases ha
  | cons x xs ih =>
    rw [List.map_cons, List.nodup_cons] at hn
    rcases List.mem_cons.mp ha with rfl | ha' <;> rcases List.mem_cons.mp hb with rfl | hb'
    · rfl
    · exact absurd (h ▸ List.mem_map_of_mem key hb') hn.1
    · exact absurd (h ▸ List.mem_map_of_mem key ha') hn.1
    · exact ih hn.2 ha' hb'

theorem delete_row_blocker_none_iff {db : DB} (hwf : wf db) (t : Nat) (rid : String) :
    delete_row_blocker db t rid = none ↔ ¬ blockingRef db t rid := by
  rw [delete_row_blocker, List.findSome?_eq_none_iff, blockingRef_iff hwf]
  constructor
  · rintro h ⟨x, hx, hcnt⟩
    have := h x hx
    rw [if_pos (by omega)] at this
    cases this
  · intro h x hx
    by_cases hc : 0 < refCount db x.1 x.2.1 rid
    · exact absurd ⟨x, hx, hc⟩ h
    · simp only [gt_iff_lt]
      rw [if_neg hc]

/-! ## Claim C1 -/

/-- C1 counterexample: the claim states a row appears in `get_rows` iff it
has a row-created event and is not net-deleted.  In `dbC1` the row `"r"` has
no row-created event, yet it appears in the reconstruction (the
`_reconstruction_sql` join never consults the `'__new__'` sentinel), so the
stated equivalence is false. -/
theorem claim_C1_counterexample :
    ¬ (("r" ∈ rowIds (get_rows dbC1 1)) ↔ specRowLive dbC1 1 "r" = true) := by
  decide

/-- C1 (amended): a row appears in the output of `get_rows(table)` iff its
max `'__deleted__'`-marking event id does not exceed its max
`'__restored__'`-marking event id, and in addition either (a) some
currently-live column carries a non-lifecycle event for it — a row-created
event is not required — or (b) it has a row-created event and no
non-lifecycle event at all; a created row whose only cell events sit on
soft-deleted columns does not appear. -/
theorem claim_C1_amended (db : DB) (t : Nat) (r : String) (h : wf db) :
    r ∈ rowIds (get_rows db t) ↔
      isDeletedRow db t r = false ∧
        ((∃ c ∈ db.columns, c.deleted = false ∧ pairEvents db t r c.id ≠ []) ∨
          (hasNew db t r = true ∧ hasCellEvents db t r = false)) :=
  mem_get_rows_iff h t r

/-- Witness for C1: the amended rule applied to the concrete `dbC1` puts the
phantom row `"r"` in the output. -/
theorem claim_C1_witness : "r" ∈ rowIds (get_rows dbC1 1) :=
  (claim_C1_amended dbC1 1 "r" (by decide)).mpr (by decide)

/-! ## Claim C2 -/

/-- C2: for a live row and a live column of the table with at least one
non-lifecycle event on the pair, the cell value `get_rows` reports under the
column's name is the value carried by the pair's event of greatest id,
however writes to other columns interleave. -/
theorem claim_C2 (db : DB) (t : Nat) (r : String) (col : ColumnRow) (hwf : wf db)
    (hcol : col ∈ db.columns) (htid : col.table_id = t) (hcd : col.deleted = false)
    (hlive : specRowLive db t r = true) (hpe : pairEvents db t r col.id ≠ []) :
    ∃ e, latestEvent db t r col.id = some e ∧
      (∀ e' ∈ pairEvents db t r col.id, e'.id ≤ e.id) ∧
      reportedCell db t r col.name = some e.value := by
  have hdel : isDeletedRow db t r = false := by
    rw [specRowLive, Bool.and_eq_true, Bool.not_eq_true'] at hlive
    exact hlive.2
  obtain ⟨e, hle, -, hmax⟩ := latestEvent_some hwf t r col.id hpe
  obtain ⟨e2, hle2, hrep⟩ := reportedCell_charact hwf t r col hcol htid hcd hpe hdel
  have he : e2 = e := Option.some.inj (hle2.symm.trans hle)
  exact ⟨e, hle, hmax, by rw [← he]; exact hrep⟩

/-- Witness for C2: in `dbC2` the reported value of `("r1", "A")` is that of
event 4, despite the interleaved write to `"B"`. -/
theorem claim_C2_witness : reportedCell dbC2 1 "r1" "A" = some (some "z") := by
  obtain ⟨e, hle, -, hrep⟩ := claim_C2 dbC2 1 "r1" ⟨10, 1, "A", 0, false, false⟩
    (by decide) (by decide) rfl rfl (by decide) (by decide)
  have he : e = ⟨4, 1, "r1", some 10, none, some "z", "t4"⟩ :=
    Option.some.inj (hle.symm.trans (by decide : latestEvent dbC2 1 "r1" 10 =
      some ⟨4, 1, "r1", some 10, none, some "z", "t4"⟩))
  rw [he] at hrep
  exact hrep

/-! ## Claim C3 -/

/-- C3 is a code bug.  The claim (and the spec) say a soft-deleted name may
be reused, and the handlers do scope their own conflict checks to live rows
— but the DDL of `_create_fresh_schema` declares `name TEXT NOT NULL UNIQUE`
on `tables` and `UNIQUE(table_id, name)` on `columns` over every physical
row, tombstoned ones included.  Re-creating a soft-deleted table name makes
the `INSERT` throw an uncaught SQLite constraint error, and re-creating a
soft-deleted column name is caught and re-raised as the domain conflict.
This theorem evaluates both failing inputs: no live sibling bears the name,
yet both creations fail. -/
theorem claim_C3_bug :
    ((dbC3a.tables.any fun tb => tb.name == "T" && !tb.deleted) = false ∧
      (create_table dbC3a "T").2 = .error "UNIQUE constraint failed: tables.name" ∧
      (create_table dbC3a "T").1 = dbC3a) ∧
    ((dbC3b.columns.any fun c => c.table_id == 1 && c.name == "C" && !c.deleted) = false ∧
      (create_column dbC3b 1 "C" false).2 =
        .error "Column \x22C\x22 already exists in this table" ∧
      (create_column dbC3b 1 "C" false).1 = dbC3b) := by
  decide

/-! ## Claim C4 -/

/-- C4 is a code bug.  The claim (and spec sections 5 and 7) demand that the
`delete_table` cascade be one atomic unit rolling back completely on any
mid-sequence failure, but the source issues the three tombstoning UPDATEs
with no `BEGIN`/`COMMIT`/`ROLLBACK` (unlike `_migrate_legacy_db`).  If the
second statement fails, the foreign-key tombstone of the first persists
while columns and table stay live — a partial cascade.  The last conjuncts
show the happy path does tombstone foreign keys, columns and table in
order, so only the atomicity part of the claim is broken. -/
theorem claim_C4_bug :
    ((delete_table_failAt dbC4 1 1).2.isOk = false ∧
      (delete_table_failAt dbC4 1 1).1.foreign_keys = [⟨5, 10, 2, true⟩] ∧
      (delete_table_failAt dbC4 1 1).1.columns = [⟨10, 1, "C", 0, false, false⟩] ∧
      (delete_table_failAt dbC4 1 1).1.tables = dbC4.tables ∧
      (delete_table_failAt dbC4 1 1).1 ≠ dbC4) ∧
    ((delete_table dbC4 1).2.isOk = true ∧
      (delete_table dbC4 1).1.foreign_keys = [⟨5, 10, 2, true⟩] ∧
      (delete_table dbC4 1).1.columns = [⟨10, 1, "C", 0, false, true⟩] ∧
      (delete_table dbC4 1).1.tables = [⟨1, "A", true⟩, ⟨2, "B", false⟩]) := by
  decide

/-! ## Claim C5 -/

/-- C5: `create_row` runs every uniqueness and foreign-key check before its
first `INSERT`, so a failing call returns with the state — in particular the
event log — completely unchanged. -/
theorem claim_C5 (db : DB) (t : Nat) (rid : String)
    (cells : List (String × Option String)) (now : String)
    (h : (create_row db t rid cells now).2.isOk = false) :
    (create_row db t rid cells now).1 = db := by
  rcases hv : create_validate db t cells rid with - | err
  · rw [create_row_ok_snd now hv] at h
    cases h
  · rw [create_row_err now hv]

/-- Witness for C5: creating a row duplicating the unique value `"x"` fails
and appends zero events. -/
theorem claim_C5_witness :
    (create_row dbC5 1 "r2" [("A", some "x")] "t3").2.isOk = false ∧
    (create_row dbC5 1 "r2" [("A", some "x")] "t3").1 = dbC5 :=
  ⟨by decide, claim_C5 dbC5 1 "r2" [("A", some "x")] "t3" (by decide)⟩

/-! ## Claim C6 -/

/-- C6 counterexample: the claim states `delete_row` succeeds whenever no
live row in another table holds the identifier.  In `dbC6` no live row
references `"r1"` — the only referencer has no row-created event — yet the
deletion fails with the referential-block error, because the referencer scan
only excludes net-deleted rows and never requires a `'__new__'` sentinel. -/
theorem claim_C6_counterexample :
    specLiveReferencerExists dbC6 1 "r1" = false ∧
    (delete_row dbC6 1 "r1" "t3").2 =
      .error "Cannot delete: 1 row(s) in \x22B\x22 reference this row" ∧
    (delete_row dbC6 1 "r1" "t3").1 = dbC6 := by
  decide

/-- C6 (amended): `delete_row(table, row)` fails, naming the referencing
table and the count, iff some row of a table bearing a live foreign key
(with live anchor column and live owning table) targeting this table
currently holds the identifier in the anchor column and is not net-deleted —
a row-created event is not required of the referencer.  Otherwise it
succeeds, appending exactly one `'__deleted__'` lifecycle event, and the row
is excluded from future reconstruction. -/
theorem claim_C6_amended (db : DB) (t : Nat) (rid now : String) (hwf : wf db) :
    ((delete_row db t rid now).2.isOk = true ↔ ¬ blockingRef db t rid) ∧
    ((delete_row db t rid now).2.isOk = true →
      (delete_row db t rid now).1.cell_history =
        db.cell_history ++
          [⟨db.next_event_id, t, rid, none, some "__deleted__", some "1", now⟩] ∧
      rid ∉ rowIds (get_rows (delete_row db t rid now).1 t)) ∧
    ((delete_row db t rid now).2.isOk = false →
      (delete_row db t rid now).1 = db ∧
      ∃ (cnt : Nat) (tname : String), 0 < cnt ∧
        (delete_row db t rid now).2 =
          .error s!"Cannot delete: {cnt} row(s) in \x22{tname}\x22 reference this row") := by
  rcases hb : delete_row_blocker db t rid with - | pair
  · rw [delete_row_of_blocker_none now hb]
    have hnb := (delete_row_blocker_none_iff hwf t rid).mp hb
    refine ⟨iff_of_true rfl hnb, fun _ => ⟨rfl, ?_⟩, fun h => Bool.noConfusion h⟩
    intro hmem
    have hwf' := wf_appendCell_noCol hwf t rid (some "__deleted__") (some "1") now
    have hdel := isDeletedRow_append_deleted hwf t rid now
    have hfalse := ((mem_get_rows_iff hwf' t rid).mp hmem).1
    rw [hdel] at hfalse
    cases hfalse
  · obtain ⟨cnt, tname⟩ := pair
    rw [delete_row_of_blocker_some now hb]
    obtain ⟨x, hx, hfx⟩ := List.exists_of_findSome?_eq_some hb
    have hfx' : (if 0 < refCount db x.1 x.2.1 rid then
        some (refCount db x.1 x.2.1 rid, x.2.2) else none) = some (cnt, tname) := by
      simpa using hfx
    have hcnt : 0 < refCount db x.1 x.2.1 rid := by
      by_cases hc : 0 < refCount db x.1 x.2.1 rid
      · exact hc
      · rw [if_neg hc] at hfx'
        cases hfx'
    have hblock : blockingRef db t rid := (blockingRef_iff hwf t rid).mpr ⟨x, hx, hcnt⟩
    refine ⟨iff_of_false (fun h => Bool.noConfusion h) (not_not_intro hblock),
      fun h => Bool.noConfusion h, fun _ => ⟨rfl, cnt, tname, ?_, rfl⟩⟩
    rw [if_pos hcnt] at hfx'
    have heq := (Option.some.injEq ..).mp hfx'
    have hc2 : refCount db x.1 x.2.1 rid = cnt := (Prod.mk.injEq ..).mp heq |>.1
    omega

/-- Witness for C6: with no referencer, `delete_row` succeeds and the row
disappears from reconstruction. -/
theorem claim_C6_witness :
    (delete_row dbC6w 1 "r1" "t2").2.isOk = true ∧
    "r1" ∉ rowIds (get_rows (delete_row dbC6w 1 "r1" "t2").1 1) := by
  have h := claim_C6_amended dbC6w 1 "r1" "t2" (by decide)
  have hok : (delete_row dbC6w 1 "r1" "t2").2.isOk = true := h.1.mpr (by decide)
  exact ⟨hok, (h.2.1 hok).2⟩

/-! ## Claim C7 -/

/-- C7 counterexample: the claim states that when no non-empty value appears
in more than one live row of the column, the flag is flipped.  In `dbC7` the
value `"v"` sits in only one live row — the other holder has no row-created
event — yet enabling uniqueness fails and leaves the state unchanged,
because the duplicate scan only excludes net-deleted rows and never requires
a `'__new__'` sentinel. -/
theorem claim_C7_counterexample :
    specDupExists dbC7 1 10 = false ∧
    (set_column_unique dbC7 10 true).2.isOk = false ∧
    (set_column_unique dbC7 10 true).1 = dbC7 := by
  decide

/-- C7 (amended): for a live column, `set_column_unique(id, true)` succeeds
iff no non-empty value currently appears in more than one row of the column
among the rows that are not net-deleted (a row-created event is not
required); on failure the whole state — in particular the flag — is
unchanged, and on success the live column's `is_unique` flag is set. -/
theorem claim_C7_amended (db : DB) (cid : Nat) (col : ColumnRow) (hwf : wf db)
    (hcol : col ∈ db.columns) (hcid : col.id = cid) (hcd : col.deleted = false) :
    ((set_column_unique db cid true).2.isOk = true ↔ ¬ dupProp db col.table_id cid) ∧
    ((set_column_unique db cid true).2.isOk = false →
      (set_column_unique db cid true).1 = db) ∧
    ((set_column_unique db cid true).2.isOk = true →
      ((set_column_unique db cid true).1.columns.find? fun c =>
        c.id == cid && !c.deleted).map (·.is_unique) = some true) := by
  have hfind : (db.columns.find? fun c => c.id == cid && !c.deleted) = some col :=
    find?_eq_some_of_key (·.id) _ _ col hwf.2.2.2.1 hcol (by simp [hcid, hcd])
      fun y _ hy => by
        simp only [Bool.and_eq_true, beq_iff_eq] at hy
        simp [hy.1, hcid]
  rw [set_column_unique, hfind]
  dsimp only
  by_cases hdup : dupExists db col.table_id cid = true
  · rw [if_pos (by simp [hdup])]
    exact ⟨iff_of_false (fun h => Bool.noConfusion h)
        (not_not_intro ((dupExists_iff db col.table_id cid).mp hdup)),
      fun _ => rfl, fun h => Bool.noConfusion h⟩
  · rw [if_neg (by simp [hdup])]
    refine ⟨iff_of_true rfl fun hp =>
        hdup ((dupExists_iff db col.table_id cid).mpr hp),
      fun h => Bool.noConfusion h, fun _ => ?_⟩
    have hfun : (fun c : ColumnRow =>
        ((if c.id == cid && !c.deleted then { c with is_unique := true } else c).id == cid &&
          !(if c.id == cid && !c.deleted then { c with is_unique := true } else c).deleted)) =
        fun c => c.id == cid && !c.deleted := by
      funext c
      by_cases hcc : (c.id == cid && !c.deleted) = true
      · rw [if_pos hcc]
      · rw [if_neg hcc]
    rw [find?_map_eq, hfun, hfind]
    simp [hcid, hcd]

/-- Witness for C7: with no duplicate, the flag is flipped. -/
theorem claim_C7_witness :
    ((set_column_unique dbC7w 10 true).1.columns.find? fun c =>
      c.id == 10 && !c.deleted).map (·.is_unique) = some true := by
  have h := claim_C7_amended dbC7w 10 ⟨10, 1, "C", 0, false, false⟩
    (by decide) (by decide) rfl rfl
  exact h.2.2 (h.1.mpr (by decide))

/-! ## Claim C8 -/

/-- C8: `create_foreign_key(from_column, to_table)` succeeds iff the column
exists live with an owning table different from the target, the target table
exists live, and the column holds no live foreign key; on success the column
holds exactly one live foreign key — the new one. -/
theorem claim_C8 (db : DB) (fc tt : Nat) (hwf : wf db) :
    ((create_foreign_key db fc tt).2.isOk = true ↔
      ((∃ c ∈ db.columns, c.id = fc ∧ c.deleted = false ∧ c.table_id ≠ tt) ∧
        (∃ tb ∈ db.tables, tb.id = tt ∧ tb.deleted = false) ∧
        ¬∃ fk ∈ db.foreign_keys, fk.from_column_id = fc ∧ fk.deleted = false)) ∧
    ((create_foreign_key db fc tt).2.isOk = true →
      liveFksOn (create_foreign_key db fc tt).1 fc = [⟨db.next_fk_id, fc, tt, false⟩]) := by
  obtain ⟨-, -, -, hcn, -, -, -⟩ := hwf
  rcases hfc : db.columns.find? fun c => c.id == fc && !c.deleted with - | col
  · rw [create_foreign_key, hfc]
    refine ⟨iff_of_false (fun h => Bool.noConfusion h) ?_, fun h => Bool.noConfusion h⟩
    rintro ⟨⟨c, hc, hcid, hcd, -⟩, -, -⟩
    rw [List.find?_eq_none] at hfc
    exact hfc c hc (by simp [hcid, hcd])
  · have hcol : col ∈ db.columns := List.mem_of_find?_eq_some hfc
    have hprop := List.find?_some hfc
    simp only [Bool.and_eq_true, beq_iff_eq, Bool.not_eq_true'] at hprop
    obtain ⟨hcid, hcd⟩ := hprop
    rw [create_foreign_key, hfc]
    dsimp only
    by_cases hself : col.table_id = tt
    · rw [if_pos (by simp [hself])]
      refine ⟨iff_of_false (fun h => Bool.noConfusion h) ?_, fun h => Bool.noConfusion h⟩
      rintro ⟨⟨c, hc, hcid', hcd', hne⟩, -, -⟩
      have : c = col := eq_of_key_nodup (·.id) db.columns hcn hc hcol (by simp [hcid', hcid])
      rw [this] at hne
      exact hne hself
    · rw [if_neg (by simp [hself])]
      rcases hft : db.tables.find? fun tb => tb.id == tt && !tb.deleted with - | tb
      · rw [hft]
        refine ⟨iff_of_false (fun h => Bool.noConfusion h) ?_, fun h => Bool.noConfusion h⟩
        rintro ⟨-, ⟨tb, htb, htbid, htbd⟩, -⟩
        rw [List.find?_eq_none] at hft
        exact hft tb htb (by simp [htbid, htbd])
      · rw [hft]
        dsimp only
        by_cases hany : (db.foreign_keys.any fun fk =>
            fk.from_column_id == fc && !fk.deleted) = true
        · rw [if_pos hany]
          refine ⟨iff_of_false (fun h => Bool.noConfusion h) ?_, fun h => Bool.noConfusion h⟩
          rintro ⟨-, -, hnofk⟩
          rw [List.any_eq_true] at hany
          obtain ⟨fk, hfk, hfkp⟩ := hany
          simp only [Bool.and_eq_true, beq_iff_eq, Bool.not_eq_true'] at hfkp
          exact hnofk ⟨fk, hfk, hfkp.1, hfkp.2⟩
        · rw [if_neg hany]
          have htbm := List.mem_of_find?_eq_some hft
          have htbp := List.find?_some hft
          simp only [Bool.and_eq_true, beq_iff_eq, Bool.not_eq_true'] at htbp
          refine ⟨iff_of_true rfl
            ⟨⟨col, hcol, hcid, hcd, hself⟩, ⟨tb, htbm, htbp.1, htbp.2⟩, ?_⟩, fun _ => ?_⟩
          · rintro ⟨fk, hfk, hfkid, hfkd⟩
            exact hany (List.any_eq_true.mpr ⟨fk, hfk, by simp [hfkid, hfkd]⟩)
          · rw [liveFksOn]
            dsimp only
            rw [List.filter_append]
            have hnil : (db.foreign_keys.filter fun fk =>
                fk.from_column_id == fc && !fk.deleted) = [] := by
              rw [List.filter_eq_nil_iff]
              intro fk hfk hp
              exact hany (List.any_eq_true.mpr ⟨fk, hfk, hp⟩)
            rw [hnil, List.nil_append, List.filter_cons, if_pos (by simp)]
            rfl

/-- Witness for C8: the first foreign key on the column is created and is
the column's only live one. -/
theorem claim_C8_witness :
    (create_foreign_key dbC8 10 2).2.isOk = true ∧
    liveFksOn (create_foreign_key dbC8 10 2).1 10 = [⟨1, 10, 2, false⟩] := by
  have h := claim_C8 dbC8 10 2 (by decide)
  have hok := h.1.mpr ⟨⟨⟨10, 1, "C", 0, false, false⟩, by decide, rfl, rfl, by decide⟩,
    ⟨⟨2, "B", false⟩, by decide, rfl, rfl⟩, by decide⟩
  exact ⟨hok, h.2 hok⟩

/-! ## Claim C9 -/

/-- C9: in `update_row`, supplied names that match no live column of the
table are silently dropped (`updEvents` walks exactly the recognized
entries); with zero recognized columns the call fails with the domain error
and the state is unchanged; any failing call leaves the state unchanged; and
a successful call appends exactly one event per recognized entry — explicit
clears included, recorded with a NULL value — in supplied order with
consecutive ids. -/
theorem claim_C9 (db : DB) (t : Nat) (rid : String)
    (cells : List (String × Option String)) (now : String) :
    (recognizedCells db t cells = [] →
      update_row db t rid cells now = (db, .error "No valid columns found in update")) ∧
    ((update_row db t rid cells now).2.isOk = false →
      (update_row db t rid cells now).1 = db) ∧
    ((update_row db t rid cells now).2.isOk = true →
      (update_row db t rid cells now).1.cell_history =
        db.cell_history ++ updEvents db t rid now db.next_event_id cells ∧
      (updEvents db t rid now db.next_event_id cells).length =
        (recognizedCells db t cells).length) := by
  have hlen := updEvents_length db t rid now db.next_event_id cells
  rw [update_row_eq]
  rcases hv : update_validate db t cells rid with - | err
  · by_cases hany : (cells.any fun p => (colLookup db t p.1).isSome) = true
    · rw [if_pos hany]
      refine ⟨fun hrec => ?_, fun h => Bool.noConfusion h, fun _ => ⟨rfl, hlen⟩⟩
      exfalso
      rw [List.any_eq_true] at hany
      obtain ⟨p, hp, hps⟩ := hany
      have : p ∈ recognizedCells db t cells := List.mem_filter.mpr ⟨hp, hps⟩
      rw [hrec] at this
      cases this
    · rw [if_neg hany]
      have hrec : recognizedCells db t cells = [] := by
        rw [recognizedCells, List.filter_eq_nil_iff]
        intro p hp hps
        exact hany (List.any_eq_true.mpr ⟨p, hp, hps⟩)
      have hupd : updEvents db t rid now db.next_event_id cells = [] :=
        List.eq_nil_of_length_eq_zero (by rw [hlen, hrec]; rfl)
      refine ⟨fun _ => ?_, fun _ => ?_, fun h => Bool.noConfusion h⟩
      · rw [hupd, hrec]
        simp
      · rw [hupd, hrec]
        simp
  · have hvn : update_validate db t cells rid ≠ none := by rw [hv]; simp
    refine ⟨fun hrec => absurd (update_validate_none_of_unrecognized ?_) hvn,
      fun _ => rfl, fun h => Bool.noConfusion h⟩
    intro p hp
    rcases hc : colLookup db t p.1 with - | c
    · rfl
    · exfalso
      have : p ∈ recognizedCells db t cells := List.mem_filter.mpr ⟨hp, by simp [hc]⟩
      rw [hrec] at this
      cases this

/-- Witness for C9: an unrecognized name alone fails with the domain error
and no writes, and a recognized clear appends exactly one NULL-valued
event. -/
theorem claim_C9_witness :
    update_row dbC5 1 "r1" [("Nope", some "x")] "t9" =
      (dbC5, .error "No valid columns found in update") ∧
    (update_row dbC5 1 "r1" [("A", none), ("Nope", some "x")] "t9").1.cell_history =
      dbC5.cell_history ++ [⟨3, 1, "r1", some 10, none, none, "t9"⟩] := by
  refine ⟨(claim_C9 dbC5 1 "r1" [("Nope", some "x")] "t9").1 (by decide), ?_⟩
  have h := ((claim_C9 dbC5 1 "r1" [("A", none), ("Nope", some "x")] "t9").2.2 (by decide)).1
  rw [h]
  decide

/-! ## Claim C10 -/

/-- C10: neither `update_row` nor `delete_row` checks that the target row
identifier exists or is live.  For every identifier — never created or
net-deleted included — `update_row` succeeds whenever at least one supplied
name is recognized and the supplied values pass validation, appending its
events under that identifier; and `delete_row` succeeds whenever no
referencer blocks it, appending a further `'__deleted__'` lifecycle event
under that identifier. -/
theorem claim_C10 :
    (∀ (db : DB) (t : Nat) (rid : String) (cells : List (String × Option String))
        (now : String),
      update_validate db t cells rid = none →
      recognizedCells db t cells ≠ [] →
      (update_row db t rid cells now).2 = .ok rid ∧
      (update_row db t rid cells now).1.cell_history =
        db.cell_history ++ updEvents db t rid now db.next_event_id cells ∧
      ∀ e ∈ updEvents db t rid now db.next_event_id cells,
        e.row_id = rid ∧ e.table_id = t ∧ e.sentinel = none) ∧
    (∀ (db : DB) (t : Nat) (rid now : String),
      delete_row_blocker db t rid = none →
      delete_row db t rid now =
        (appendCell db t rid none (some "__deleted__") (some "1") now, .ok ())) := by
  constructor
  · intro db t rid cells now hv hrec
    rw [update_row_eq, hv]
    have hany : (cells.any fun p => (colLookup db t p.1).isSome) = true := by
      obtain ⟨p, hp⟩ := List.exists_mem_of_ne_nil _ hrec
      have hm := List.mem_filter.mp hp
      exact List.any_eq_true.mpr ⟨p, hm.1, hm.2⟩
    rw [if_pos hany]
    refine ⟨rfl, rfl, fun e he => ?_⟩
    obtain ⟨ht, hr, hs, -⟩ := updEvents_fields db t rid now db.next_event_id cells e he
    exact ⟨hr, ht, hs⟩
  · intro db t rid now hb
    exact delete_row_of_blocker_none now hb

/-- Witness for C10: updating and deleting row identifiers that were never
created both succeed. -/
theorem claim_C10_witness :
    (update_row dbC10 1 "ghost" [("A", some "x")] "t1").2 = .ok "ghost" ∧
    (delete_row dbC10 1 "phantom" "t2").2 = .ok () := by
  refine ⟨(claim_C10.1 dbC10 1 "ghost" [("A", some "x")] "t1" (by decide) (by decide)).1, ?_⟩
  rw [claim_C10.2 dbC10 1 "phantom" "t2" (by decide)]
